/-
  Verification of the FlexiGraph core (ngx-flexigraph).

  Shallow embedding of the graph-algorithm utilities
  (`src/projects/ngx-flexigraph/src/lib/utils/graph-algorithms.ts`),
  the validation service, the history service, the FlexiGraphService
  mutations, the collapse service and the stable-layout service,
  together with proofs of the specified properties.

  Conventions:
  - JS strings are Lean `String`s; JS arrays are Lean `List`s;
    JS `Set`/`Map` objects are `Finset`s / association lists.
  - `deepCloneNodes` (a JSON round trip on plain data) is the identity
    on the embedded value type.
  - Loops whose termination is not structural are embedded with fuel;
    when the source loop terminates on all inputs we prove the chosen
    fuel suffices, and when it does not (getNodeDepth / getNodeHeight
    on cyclic inputs) we prove that no fuel suffices.
-/
import Mathlib

namespace FlexiGraph

/-- A graph node, from `graph.models.ts` (`FlexiNode`).  The opaque
`data`, `position`, `locked` and `classes` payload fields are carried
unchanged by every operation considered here and are elided. -/
structure FlexiNode where
  id : String
  label : String
  parentIds : List String
  deriving Repr, DecidableEq

/-- `nodes.find(n => n.id === id)` as used by `FlexiGraphService.getNode`. -/
def lookupNode (nodes : List FlexiNode) (id : String) : Option FlexiNode :=
  nodes.find? (fun n => n.id = id)

/-- The children adjacency of the `childrenMap` built in
`wouldCreateCycle` / `getNodeHeight` / `getDescendants`: for a key `p`,
the ids of all nodes whose `parentIds` contain `p`, in node order. -/
def childIds (nodes : List FlexiNode) (p : String) : List String :=
  (nodes.filter (fun n => p ∈ n.parentIds)).map (fun n => n.id)

/-- One parent→child edge of the graph: `p ∈ c.parentIds` for some node
with id `c`.  The parent id need not itself name a node (dangling
parent references still produce edges, exactly as in the code's
`childrenMap`). -/
def EdgeP (nodes : List FlexiNode) (p c : String) : Prop :=
  ∃ n ∈ nodes, n.id = c ∧ p ∈ n.parentIds

theorem mem_childIds_iff {nodes : List FlexiNode} {p c : String} :
    c ∈ childIds nodes p ↔ EdgeP nodes p c := by
  simp only [childIds, List.mem_map, List.mem_filter, EdgeP]
  constructor
  · rintro ⟨n, ⟨hn, hp⟩, rfl⟩
    exact ⟨n, hn, rfl, by simpa using hp⟩
  · rintro ⟨n, hn, rfl, hp⟩
    exact ⟨n, ⟨hn, by simpa using hp⟩, rfl⟩

instance (nodes : List FlexiNode) (p c : String) : Decidable (EdgeP nodes p c) :=
  decidable_of_iff _ mem_childIds_iff

/-- The BFS worklist loop of `wouldCreateCycle`, with fuel.  `visited`
is the JS `Set`, `queue` the JS array (`shift` pops the head, pushes go
to the tail).  The head is compared against `sourceId` before the
visited check, exactly as in the source. -/
def bfsLoop (src : String) (children : String → List String) :
    Nat → Finset String → List String → Option Bool
  | _, _, [] => some false
  | 0, _, _ :: _ => none
  | fuel + 1, visited, cur :: rest =>
    if cur = src then some true
    else if cur ∈ visited then bfsLoop src children fuel visited rest
    else
      let visited' := insert cur visited
      bfsLoop src children fuel visited'
        (rest ++ (children cur).filter (fun c => !decide (c ∈ visited')))

/-- All ids that can ever appear in the BFS queue started at `t`. -/
def bfsUniv (nodes : List FlexiNode) (t : String) : Finset String :=
  insert t (nodes.map (fun n => n.id)).toFinset

/-- Fuel provably sufficient for the BFS loop (one unit per queue entry
plus, for every potential vertex, one unit per visit and one per child
pushed from it). -/
def bfsFuel (nodes : List FlexiNode) (t : String) : Nat :=
  1 + (bfsUniv nodes t).sum (fun i => 1 + (childIds nodes i).length)

/-- `wouldCreateCycle` from `graph-algorithms.ts`: true iff adding the
edge `sourceId → targetId` would close a cycle; self-loops are reported
unconditionally.  The `none` fallback of the fuelled loop is dead code
(`bfsLoop_isSome_of_fuel`). -/
def wouldCreateCycle (nodes : List FlexiNode) (sourceId targetId : String) : Bool :=
  if sourceId = targetId then true
  else
    match bfsLoop sourceId (childIds nodes) (bfsFuel nodes targetId) ∅ [targetId] with
    | some b => b
    | none => false

/-! ### Correctness of the cycle-detection BFS -/

/-- Reachability along the loop's adjacency function. -/
def ReachC (children : String → List String) : String → String → Prop :=
  Relation.ReflTransGen (fun a b => b ∈ children a)

theorem reachC_iff (nodes : List FlexiNode) (a b : String) :
    ReachC (childIds nodes) a b ↔ Relation.ReflTransGen (EdgeP nodes) a b := by
  constructor
  · exact Relation.ReflTransGen.mono (fun x y hxy => mem_childIds_iff.1 hxy)
  · exact Relation.ReflTransGen.mono (fun x y hxy => mem_childIds_iff.2 hxy)

theorem bfsLoop_eq_true {src : String} {children : String → List String} :
    ∀ (fuel : Nat) (visited : Finset String) (queue : List String),
      bfsLoop src children fuel visited queue = some true →
      ∃ q ∈ queue, ReachC children q src := by
  intro fuel
  induction fuel with
  | zero =>
    intro visited queue h
    cases queue with
    | nil => simp [bfsLoop] at h
    | cons cur rest => simp [bfsLoop] at h
  | succ fuel ih =>
    intro visited queue h
    cases queue with
    | nil => simp [bfsLoop] at h
    | cons cur rest =>
      rw [bfsLoop] at h
      by_cases hsrc : cur = src
      · exact ⟨cur, by simp, by subst hsrc; exact Relation.ReflTransGen.refl⟩
      · rw [if_neg hsrc] at h
        by_cases hv : cur ∈ visited
        · rw [if_pos hv] at h
          obtain ⟨q, hq, hr⟩ := ih visited rest h
          exact ⟨q, by simp [hq], hr⟩
        · rw [if_neg hv] at h
          obtain ⟨q, hq, hr⟩ := ih _ _ h
          rcases List.mem_append.1 hq with h1 | h2
          · exact ⟨q, by simp [h1], hr⟩
          · exact ⟨cur, by simp, Relation.ReflTransGen.head (List.mem_filter.1 h2).1 hr⟩

/-- A vertex set closed under the adjacency contains everything reachable
from its members. -/
theorem reach_mem_closed {children : String → List String} {V : Finset String}
    (hcl : ∀ v ∈ V, ∀ c ∈ children v, c ∈ V) {a b : String} (ha : a ∈ V)
    (h : ReachC children a b) : b ∈ V := by
  induction h with
  | refl => exact ha
  | tail _ hstep ih => exact hcl _ ih _ hstep

theorem bfsLoop_eq_false {src : String} {children : String → List String} :
    ∀ (fuel : Nat) (visited : Finset String) (queue : List String),
      bfsLoop src children fuel visited queue = some false →
      (∀ v ∈ visited, ∀ c ∈ children v, c ∈ visited ∨ c ∈ queue) →
      src ∉ visited →
      ∀ q, (q ∈ visited ∨ q ∈ queue) → ¬ ReachC children q src := by
  intro fuel
  induction fuel with
  | zero =>
    intro visited queue h hcl hsrc q hqmem hreach
    cases queue with
    | nil =>
      have hcl' : ∀ v ∈ visited, ∀ c ∈ children v, c ∈ visited := by
        intro v hv c hc
        rcases hcl v hv c hc with h1 | h1
        · exact h1
        · simp at h1
      have : q ∈ visited := by rcases hqmem with h1 | h1; exacts [h1, by simp at h1]
      exact hsrc (reach_mem_closed hcl' this hreach)
    | cons cur rest => simp [bfsLoop] at h
  | succ fuel ih =>
    intro visited queue h hcl hsrc q hqmem hreach
    cases queue with
    | nil =>
      have hcl' : ∀ v ∈ visited, ∀ c ∈ children v, c ∈ visited := by
        intro v hv c hc
        rcases hcl v hv c hc with h1 | h1
        · exact h1
        · simp at h1
      have : q ∈ visited := by rcases hqmem with h1 | h1; exacts [h1, by simp at h1]
      exact hsrc (reach_mem_closed hcl' this hreach)
    | cons cur rest =>
      rw [bfsLoop] at h
      by_cases hsrceq : cur = src
      · rw [if_pos hsrceq] at h; simp at h
      · rw [if_neg hsrceq] at h
        by_cases hv : cur ∈ visited
        · rw [if_pos hv] at h
          refine ih visited rest h ?_ hsrc q ?_ hreach
          · intro v hv' c hc
            rcases hcl v hv' c hc with h1 | h1
            · exact Or.inl h1
            · rcases List.mem_cons.1 h1 with h2 | h2
              · exact Or.inl (h2 ▸ hv)
              · exact Or.inr h2
          · rcases hqmem with h1 | h1
            · exact Or.inl h1
            · rcases List.mem_cons.1 h1 with h2 | h2
              · exact Or.inl (h2 ▸ hv)
              · exact Or.inr h2
        · rw [if_neg hv] at h
          refine ih (insert cur visited) _ h ?_ ?_ q ?_ hreach
          · intro v hv' c hc
            rcases Finset.mem_insert.1 hv' with h2 | h2
            · by_cases hcv : c ∈ insert cur visited
              · exact Or.inl hcv
              · refine Or.inr (List.mem_append.2 (Or.inr ?_))
                exact List.mem_filter.2 ⟨h2 ▸ hc, by simpa using hcv⟩
            · rcases hcl v h2 c hc with h3 | h3
              · exact Or.inl (Finset.mem_insert_of_mem h3)
              · rcases List.mem_cons.1 h3 with h4 | h4
                · exact Or.inl (h4 ▸ Finset.mem_insert_self _ _)
                · exact Or.inr (List.mem_append.2 (Or.inl h4))
          · intro hmem
            rcases Finset.mem_insert.1 hmem with h2 | h2
            · exact hsrceq h2.symm
            · exact hsrc h2
          · rcases hqmem with h1 | h1
            · exact Or.inl (Finset.mem_insert_of_mem h1)
            · rcases List.mem_cons.1 h1 with h2 | h2
              · exact Or.inl (h2 ▸ Finset.mem_insert_self _ _)
              · exact Or.inr (List.mem_append.2 (Or.inl h2))

theorem bfsLoop_isSome {src : String} {children : String → List String}
    {univ : Finset String} (huniv : ∀ a c, c ∈ children a → c ∈ univ) :
    ∀ (fuel : Nat) (visited : Finset String) (queue : List String),
      (∀ q ∈ queue, q ∈ univ) →
      queue.length + ((univ \ visited).sum (fun i => 1 + (children i).length)) ≤ fuel →
      (bfsLoop src children fuel visited queue).isSome := by
  intro fuel
  induction fuel with
  | zero =>
    intro visited queue hq hΦ
    cases queue with
    | nil => simp [bfsLoop]
    | cons cur rest => simp at hΦ
  | succ fuel ih =>
    intro visited queue hq hΦ
    cases queue with
    | nil => simp [bfsLoop]
    | cons cur rest =>
      rw [bfsLoop]
      by_cases hsrc : cur = src
      · simp [hsrc]
      · rw [if_neg hsrc]
        by_cases hv : cur ∈ visited
        · rw [if_pos hv]
          refine ih visited rest (fun q hq' => hq q (by simp [hq'])) ?_
          simp only [List.length_cons] at hΦ
          omega
        · rw [if_neg hv]
          refine ih _ _ ?_ ?_
          · intro q hq'
            rcases List.mem_append.1 hq' with h1 | h2
            · exact hq q (by simp [h1])
            · exact huniv cur q (List.mem_filter.1 h2).1
          · have hcuru : cur ∈ univ := hq cur (by simp)
            have hmem : cur ∈ univ \ visited := Finset.mem_sdiff.2 ⟨hcuru, hv⟩
            have hsd : univ \ insert cur visited = (univ \ visited).erase cur := by
              ext x
              simp only [Finset.mem_sdiff, Finset.mem_erase, Finset.mem_insert]
              tauto
            have hsum : (∑ i ∈ (univ \ visited).erase cur, (1 + (children i).length)) +
                (1 + (children cur).length) =
                ∑ i ∈ univ \ visited, (1 + (children i).length) := by
              simpa using Finset.sum_erase_add (univ \ visited)
                (fun i => 1 + (children i).length) hmem
            have hlen : ((children cur).filter
                (fun c => !decide (c ∈ insert cur visited))).length ≤
                (children cur).length := List.length_filter_le _ _
            rw [hsd]
            simp only [List.length_append, List.length_cons] at hΦ ⊢
            omega

theorem wouldCreateCycle_correct (nodes : List FlexiNode) (sourceId targetId : String) :
    wouldCreateCycle nodes sourceId targetId = true ↔
      sourceId = targetId ∨ Relation.ReflTransGen (EdgeP nodes) targetId sourceId := by
  unfold wouldCreateCycle
  by_cases hst : sourceId = targetId
  · simp [hst]
  · rw [if_neg hst]
    have huniv : ∀ a c, c ∈ childIds nodes a → c ∈ bfsUniv nodes targetId := by
      intro a c hc
      simp only [childIds, List.mem_map, List.mem_filter] at hc
      obtain ⟨n, ⟨hn, _⟩, rfl⟩ := hc
      exact Finset.mem_insert_of_mem (List.mem_toFinset.2 (List.mem_map_of_mem _ hn))
    have hsome := @bfsLoop_isSome sourceId (childIds nodes) (bfsUniv nodes targetId)
      huniv (bfsFuel nodes targetId) ∅ [targetId] ?_ ?_
    rotate_left
    · intro q hq
      simp only [List.mem_singleton] at hq
      subst hq
      exact Finset.mem_insert_self _ _
    · simp [bfsFuel]
    obtain ⟨b, hb⟩ := Option.isSome_iff_exists.1 hsome
    cases b
    · rw [hb]
      simp only [Bool.false_eq_true, false_iff]
      rintro (h | h)
      · exact hst h
      · exact bfsLoop_eq_false _ ∅ [targetId] hb (by simp) (by simp) targetId
          (Or.inr (by simp)) ((reachC_iff nodes targetId sourceId).2 h)
    · rw [hb]
      simp only [true_iff]
      obtain ⟨q, hq, hr⟩ := bfsLoop_eq_true _ ∅ [targetId] hb
      simp only [List.mem_singleton] at hq
      subst hq
      exact Or.inr ((reachC_iff nodes _ _).1 hr)

/-- **C2.** `wouldCreateCycle(nodes, sourceId, targetId)` returns `true`
iff `sourceId = targetId` or `sourceId` is reachable from `targetId`
along forward parent→child edges built from the nodes' `parentIds`;
in particular a self-loop is reported as a cycle unconditionally. -/
theorem wouldCreateCycle_spec (nodes : List FlexiNode) (sourceId targetId : String) :
    (wouldCreateCycle nodes sourceId targetId = true ↔
      sourceId = targetId ∨ Relation.ReflTransGen (EdgeP nodes) targetId sourceId) ∧
    wouldCreateCycle nodes sourceId sourceId = true :=
  ⟨wouldCreateCycle_correct nodes sourceId targetId, by simp [wouldCreateCycle]⟩

/-! ### Acyclicity, abstractly -/

/-- A relation with no nonempty path from a vertex back to itself. -/
def AcyclicRel {α : Type} (r : α → α → Prop) : Prop :=
  ∀ a, ¬ Relation.TransGen r a a

/-- Decomposition of reflexive-transitive paths after adding edges from a
set `S` of sources into a single target `X` that could not reach back:
every new path is an old path, or passes through one of the new edges. -/
theorem reflTransGen_union_decompose {α : Type} {r : α → α → Prop} {S : Set α} {X : α}
    (hS : ∀ s ∈ S, ¬ Relation.ReflTransGen r X s) {a b : α}
    (h : Relation.ReflTransGen (fun u v => r u v ∨ (u ∈ S ∧ v = X)) a b) :
    Relation.ReflTransGen r a b ∨
      (∃ s ∈ S, Relation.ReflTransGen r a s ∧ Relation.ReflTransGen r X b) := by
  induction h with
  | refl => exact Or.inl Relation.ReflTransGen.refl
  | tail _ hstep ih =>
    rcases hstep with hr | ⟨hbS, rfl⟩
    · rcases ih with h1 | ⟨s, hs, has, hXb⟩
      · exact Or.inl (h1.tail hr)
      · exact Or.inr ⟨s, hs, has, hXb.tail hr⟩
    · rcases ih with h1 | ⟨s, hs, _, hXb⟩
      · exact Or.inr ⟨_, hbS, h1, Relation.ReflTransGen.refl⟩
      · exact absurd hXb (hS _ hbS)

/-- Adding edges from sources `S` into a target `X` that could not reach
any member of `S` preserves acyclicity. -/
theorem acyclicRel_union_into {α : Type} {r : α → α → Prop} {S : Set α} {X : α}
    (hacyc : AcyclicRel r) (hS : ∀ s ∈ S, ¬ Relation.ReflTransGen r X s) :
    AcyclicRel (fun u v => r u v ∨ (u ∈ S ∧ v = X)) := by
  intro a htg
  rw [Relation.TransGen.head'_iff] at htg
  obtain ⟨b, hstep, hpath⟩ := htg
  rcases hstep with hr | ⟨haS, rfl⟩
  · rcases reflTransGen_union_decompose hS hpath with h1 | ⟨s, hs, hbs, hXa⟩
    · exact hacyc a (Relation.TransGen.head' hr h1)
    · exact hS s hs ((hXa.tail hr).trans hbs)
  · rcases reflTransGen_union_decompose hS hpath with h1 | ⟨s, hs, hXs, _⟩
    · exact hS a haS h1
    · exact hS s hs hXs

theorem acyclicRel_mono {α : Type} {r r' : α → α → Prop}
    (hsub : ∀ a b, r' a b → r a b) (hacyc : AcyclicRel r) : AcyclicRel r' :=
  fun a h => hacyc a (Relation.TransGen.mono hsub h)

/-- Acyclicity of a node collection, phrased the way claim C1 states it:
for every recorded parent→child edge there is no path from the child
back to the parent (this subsumes the no-self-parent condition, via the
trivial path). -/
def AcyclicNodes (nodes : List FlexiNode) : Prop :=
  ∀ p c, EdgeP nodes p c → ¬ Relation.ReflTransGen (EdgeP nodes) c p

theorem acyclicNodes_iff (nodes : List FlexiNode) :
    AcyclicNodes nodes ↔ AcyclicRel (EdgeP nodes) := by
  constructor
  · intro h a htg
    rw [Relation.TransGen.head'_iff] at htg
    obtain ⟨b, hstep, hpath⟩ := htg
    exact h a b hstep hpath
  · intro h p c hedge hpath
    exact h p (Relation.TransGen.head' hedge hpath)

/-! ### Id generation (`isUniqueId`, `generateNodeId`) -/

/-- `isUniqueId` from `graph-algorithms.ts`:
`!nodes.some(node => node.id === id)`. -/
def isUniqueId (nodes : List FlexiNode) (id : String) : Bool :=
  !(nodes.any (fun node => node.id = id))

/-- The decimal digit string of a JS number used by the template literal
`` `${prefix}-${counter}` ``  (most significant digit first). -/
def natToDecimalString (n : Nat) : String :=
  if n = 0 then "0" else ((Nat.digits 10 n).map Nat.digitChar).reverse.asString

/-- Numeric value of a decimal digit character (left inverse of
`Nat.digitChar` below 10). -/
def digitVal (c : Char) : Nat :=
  if c = '0' then 0 else if c = '1' then 1 else if c = '2' then 2
  else if c = '3' then 3 else if c = '4' then 4 else if c = '5' then 5
  else if c = '6' then 6 else if c = '7' then 7 else if c = '8' then 8
  else if c = '9' then 9 else 10

theorem digitVal_digitChar {d : Nat} (h : d < 10) :
    digitVal (Nat.digitChar d) = d := by
  interval_cases d <;> rfl

theorem map_digitChar_eq_iff {l1 l2 : List Nat}
    (h1 : ∀ d ∈ l1, d < 10) (h2 : ∀ d ∈ l2, d < 10)
    (h : l1.map Nat.digitChar = l2.map Nat.digitChar) : l1 = l2 := by
  have e1 : (l1.map Nat.digitChar).map digitVal = l1 := by
    rw [List.map_map]
    exact (List.map_congr_left (fun d hd => digitVal_digitChar (h1 d hd))).trans l1.map_id
  have e2 : (l2.map Nat.digitChar).map digitVal = l2 := by
    rw [List.map_map]
    exact (List.map_congr_left (fun d hd => digitVal_digitChar (h2 d hd))).trans l2.map_id
  rw [← e1, ← e2, h]

theorem natToDecimalString_injective : Function.Injective natToDecimalString := by
  intro a b h
  unfold natToDecimalString at h
  have digs : ∀ n : Nat, ∀ d ∈ Nat.digits 10 n, d < 10 :=
    fun n d hd => Nat.digits_lt_base (by norm_num) hd
  by_cases ha : a = 0 <;> by_cases hb : b = 0
  · rw [ha, hb]
  · rw [if_pos ha, if_neg hb] at h
    have hdat := congrArg String.data h.symm
    simp only [String.data_append] at hdat
    have : (Nat.digits 10 b).map Nat.digitChar = ['0'] := by
      have := List.asString_inj.1 (String.asString_toList "0" ▸ h.symm)
      have hrev := congrArg List.reverse this
      simpa using hrev
    have : Nat.digits 10 b = [0] := map_digitChar_eq_iff (digs b) (by simp) this
    have := congrArg (Nat.ofDigits 10) this
    rw [Nat.ofDigits_digits] at this
    simp [Nat.ofDigits] at this
    exact absurd this hb
  · rw [if_neg ha, if_pos hb] at h
    have : (Nat.digits 10 a).map Nat.digitChar = ['0'] := by
      have := List.asString_inj.1 (String.asString_toList "0" ▸ h)
      have hrev := congrArg List.reverse this
      simpa using hrev
    have : Nat.digits 10 a = [0] := map_digitChar_eq_iff (digs a) (by simp) this
    have := congrArg (Nat.ofDigits 10) this
    rw [Nat.ofDigits_digits] at this
    simp [Nat.ofDigits] at this
    exact absurd this ha
  · rw [if_neg ha, if_neg hb] at h
    have hl := List.asString_inj.1 h
    have hrev := congrArg List.reverse hl
    simp only [List.reverse_reverse] at hrev
    have := map_digitChar_eq_iff (digs a) (digs b) hrev
    have := congrArg (Nat.ofDigits 10) this
    rwa [Nat.ofDigits_digits, Nat.ofDigits_digits] at this

/-- The candidate id `` `${pre}-${counter}` `` tried by `generateNodeId`. -/
def candidateId (pre : String) (counter : Nat) : String :=
  pre ++ "-" ++ natToDecimalString counter

theorem candidateId_injective (pre : String) :
    Function.Injective (candidateId pre) := by
  intro a b h
  unfold candidateId at h
  have h2 := congrArg String.data h
  simp only [String.data_append] at h2
  exact natToDecimalString_injective
    (String.toList_inj.1 (List.append_cancel_left h2))

/-- The `while (!isUniqueId(nodes, id))` loop of `generateNodeId`, with
fuel; `genLoop_fuel_sufficient` shows the fallback branch is dead. -/
def genLoop (nodes : List FlexiNode) (pre : String) : Nat → Nat → String
  | 0, counter => candidateId pre counter
  | fuel + 1, counter =>
    if isUniqueId nodes (candidateId pre counter) then candidateId pre counter
    else genLoop nodes pre fuel (counter + 1)

/-- `generateNodeId` from `graph-algorithms.ts` (default prefix
`'node'`): starts at `counter = nodes.length + 1` and increments until
`isUniqueId` accepts; `nodes.length + 1` candidates always suffice. -/
def generateNodeId (nodes : List FlexiNode) (pre : String := "node") : String :=
  genLoop nodes pre (nodes.length + 1) (nodes.length + 1)

theorem genLoop_unique (nodes : List FlexiNode) (pre : String) :
    ∀ (fuel counter : Nat),
      (∃ i < fuel, isUniqueId nodes (candidateId pre (counter + i)) = true) →
      isUniqueId nodes (genLoop nodes pre fuel counter) = true := by
  intro fuel
  induction fuel with
  | zero =>
    intro counter h
    obtain ⟨i, hi, _⟩ := h
    omega
  | succ fuel ih =>
    intro counter h
    rw [genLoop]
    by_cases hu : isUniqueId nodes (candidateId pre counter) = true
    · rw [if_pos hu]; exact hu
    · rw [if_neg hu]
      obtain ⟨i, hi, hiu⟩ := h
      refine ih (counter + 1) ⟨i - 1, ?_, ?_⟩
      · rcases Nat.eq_zero_or_pos i with h0 | h0
        · subst h0; simp at hiu; exact absurd hiu hu
        · omega
      · rcases Nat.eq_zero_or_pos i with h0 | h0
        · subst h0; simp at hiu; exact absurd hiu hu
        · have : counter + 1 + (i - 1) = counter + i := by omega
          rw [this]; exact hiu

/-- Pigeonhole: among any `nodes.length + 1` consecutive candidate
ids at least one is unique. -/
theorem exists_unique_candidate (nodes : List FlexiNode) (pre : String) (c0 : Nat) :
    ∃ i < nodes.length + 1, isUniqueId nodes (candidateId pre (c0 + i)) = true := by
  by_contra hcon
  push_neg at hcon
  have hall : ∀ i < nodes.length + 1, candidateId pre (c0 + i) ∈ nodes.map (fun n => n.id) := by
    intro i hi
    have hne := hcon i hi
    rw [Ne, Bool.not_eq_true] at hne
    simp only [isUniqueId, Bool.not_eq_false', List.any_eq_true,
      decide_eq_true_eq] at hne
    obtain ⟨n, hn, hid⟩ := hne
    exact List.mem_map.2 ⟨n, hn, hid⟩
  have hcard : (Finset.range (nodes.length + 1)).card ≤
      ((nodes.map (fun n => n.id)).toFinset).card := by
    apply Finset.card_le_card_of_injOn (fun i => candidateId pre (c0 + i))
    · intro i hi
      exact List.mem_toFinset.2 (hall i (Finset.mem_range.1 hi))
    · intro i _ j _ hij
      have := candidateId_injective pre hij
      omega
  have hle : ((nodes.map (fun n => n.id)).toFinset).card ≤ nodes.length := by
    calc ((nodes.map (fun n => n.id)).toFinset).card
        ≤ (nodes.map (fun n => n.id)).length := (nodes.map (fun n => n.id)).toFinset_card_le
      _ = nodes.length := List.length_map _ _
  simp only [Finset.card_range] at hcard
  omega

/-- `generateNodeId` always returns an id passing `isUniqueId`. -/
theorem generateNodeId_unique (nodes : List FlexiNode) (pre : String) :
    isUniqueId nodes (generateNodeId nodes pre) = true :=
  genLoop_unique nodes pre _ _ (exists_unique_candidate nodes pre _)

/-! ### Depth and height (`getNodeDepth`, `getNodeHeight`) -/

/-- `new Map(nodes.map(n => [n.id, n])).get(id)`: for duplicate keys the
JS `Map` constructor keeps the last entry. -/
def nodeMapGet (nodes : List FlexiNode) (id : String) : Option FlexiNode :=
  nodes.reverse.find? (fun n => n.id = id)

/-- The recursive `computeDepth` helper of `getNodeDepth`, with the memo
`cache` threaded through and fuel bounding the recursion depth.  The
source has no in-progress marking, so on a cyclic input the recursion
never returns and the cache is never written along the cycle; `none`
models that divergence (claim C8). -/
def computeDepthF (nodes : List FlexiNode) :
    Nat → List (String × Nat) → String → Option (Nat × List (String × Nat))
  | 0, _, _ => none
  | fuel + 1, cache, id =>
    match cache.find? (fun e => e.1 = id) with
    | some e => some (e.2, cache)
    | none =>
      match nodeMapGet nodes id with
      | none => some (0, (id, 0) :: cache)
      | some n =>
        if n.parentIds.isEmpty then some (0, (id, 0) :: cache)
        else
          match n.parentIds.foldl
            (fun acc pid =>
              match acc with
              | none => none
              | some (ds, c) =>
                match computeDepthF nodes fuel c pid with
                | none => none
                | some (d, c') => some (ds ++ [d], c'))
            (some ([], cache)) with
          | none => none
          | some (ds, c') =>
            let d := ds.foldl max 0 + 1
            some (d, (id, d) :: c')

/-- `getNodeDepth` from `graph-algorithms.ts`.  On acyclic inputs the
fuel suffices (recursion depth is bounded by the number of nodes); on
cyclic inputs the source diverges and this embedding returns 0. -/
def getNodeDepth (nodes : List FlexiNode) (nodeId : String) : Nat :=
  match computeDepthF nodes (nodes.length + 1) [] nodeId with
  | some (d, _) => d
  | none => 0

/-- The recursive `computeHeight` helper of `getNodeHeight`, symmetric
to `computeDepthF` over the children map. -/
def computeHeightF (nodes : List FlexiNode) :
    Nat → List (String × Nat) → String → Option (Nat × List (String × Nat))
  | 0, _, _ => none
  | fuel + 1, cache, id =>
    match cache.find? (fun e => e.1 = id) with
    | some e => some (e.2, cache)
    | none =>
      if (childIds nodes id).isEmpty then some (0, (id, 0) :: cache)
      else
        match (childIds nodes id).foldl
          (fun acc cid =>
            match acc with
            | none => none
            | some (hs, c) =>
              match computeHeightF nodes fuel c cid with
              | none => none
              | some (h, c') => some (hs ++ [h], c'))
          (some ([], cache)) with
        | none => none
        | some (hs, c') =>
          let h := hs.foldl max 0 + 1
          some (h, (id, h) :: c')

/-- `getNodeHeight` from `graph-algorithms.ts`. -/
def getNodeHeight (nodes : List FlexiNode) (nodeId : String) : Nat :=
  match computeHeightF nodes (nodes.length + 1) [] nodeId with
  | some (h, _) => h
  | none => 0

/-- `deepCloneNodes` (`JSON.parse(JSON.stringify(nodes))`): the identity
on the embedded plain-data node type. -/
def deepCloneNodes (nodes : List FlexiNode) : List FlexiNode := nodes

/-! ### Configuration (`config.models.ts`) -/

/-- Outcome of one invocation of an injected custom validator: a boolean
verdict, or a thrown exception with its message text (the `catch` branch
in `validateEdge` / `validateReparent`). -/
inductive CvRes where
  | ok (b : Bool)
  | exn (msg : String)

/-- `ValidationConfig` (the fields the modelled services consult). -/
structure ValidationConfig where
  allowCycles : Bool
  allowSelfLoops : Bool
  maxDepth : Option Nat := none
  maxChildren : Option Nat := none
  customValidator : Option (String → String → List FlexiNode → CvRes) := none

/-- `MultiParentConfig` (the `modifier` field is UI-only and elided). -/
structure MultiParentConfig where
  enabled : Bool
  maxParents : Option Nat := none

/-- `HistoryConfig` (`captureThrottleMs` is UI-only and elided). -/
structure HistoryConfig where
  enabled : Bool
  maxStackSize : Option Nat := none

/-- `FlexiGraphConfig`; styling/layout/interaction/context-menu/zoom/
export/new-node sections are never consulted by the modelled services
and are elided. -/
structure FlexiGraphConfig where
  multiParent : Option MultiParentConfig := none
  validation : Option ValidationConfig := none
  history : Option HistoryConfig := none

/-- The `validation` section of `DEFAULT_FLEXIGRAPH_CONFIG`. -/
def defaultValidationConfig : ValidationConfig where
  allowCycles := false
  allowSelfLoops := false
  maxDepth := some 0
  maxChildren := some 0
  customValidator := none

/-- `DEFAULT_FLEXIGRAPH_CONFIG` (the consulted fields). -/
def DEFAULT_FLEXIGRAPH_CONFIG : FlexiGraphConfig where
  multiParent := some { enabled := true, maxParents := some 0 }
  validation := some defaultValidationConfig
  history := some { enabled := true, maxStackSize := some 50 }

/-- JS `x || d` for a possibly-undefined number `x`: both `undefined`
and `0` are falsy. -/
def jsOrNat (o : Option Nat) (d : Nat) : Nat :=
  match o with
  | none => d
  | some 0 => d
  | some (k + 1) => k + 1

/-- `config.validation?.allowSelfLoops` (undefined section is falsy). -/
def cfgAllowSelfLoops (cfg : FlexiGraphConfig) : Bool :=
  (cfg.validation.map (fun v => v.allowSelfLoops)).getD false

/-- `config.validation?.allowCycles`. -/
def cfgAllowCycles (cfg : FlexiGraphConfig) : Bool :=
  (cfg.validation.map (fun v => v.allowCycles)).getD false

/-- `config.multiParent?.maxParents || 0`. -/
def cfgMaxParents (cfg : FlexiGraphConfig) : Nat :=
  jsOrNat (cfg.multiParent.bind (fun m => m.maxParents)) 0

/-- `config.validation?.maxDepth || 0`. -/
def cfgMaxDepth (cfg : FlexiGraphConfig) : Nat :=
  jsOrNat (cfg.validation.bind (fun v => v.maxDepth)) 0

/-- `config.validation?.customValidator`. -/
def cfgCustom (cfg : FlexiGraphConfig) :
    Option (String → String → List FlexiNode → CvRes) :=
  cfg.validation.bind (fun v => v.customValidator)

/-! ### ValidationService (`validation.service.ts`) -/

structure ValidationResult where
  isValid : Bool
  error : Option String := none
  deriving Repr, DecidableEq

/-- `ValidationService.validateEdge`.  The `emitError` event plumbing
has no effect on the returned result and is elided; the async custom
validator is modelled by its outcome. -/
def validateEdge (nodes : List FlexiNode) (sourceId targetId : String)
    (config : FlexiGraphConfig) : ValidationResult :=
  match lookupNode nodes sourceId, lookupNode nodes targetId with
  | some _, some target =>
    if sourceId ∈ target.parentIds then
      ⟨false, some "Edge already exists"⟩
    else if !cfgAllowSelfLoops config ∧ sourceId = targetId then
      ⟨false, some "Self-loops are not allowed"⟩
    else if !cfgAllowCycles config ∧ sourceId ≠ targetId ∧
        wouldCreateCycle nodes sourceId targetId then
      ⟨false, some "Cycle detected"⟩
    else if 0 < cfgMaxParents config ∧
        cfgMaxParents config ≤ target.parentIds.length then
      ⟨false, some ("Node cannot have more than " ++
        natToDecimalString (cfgMaxParents config) ++ " parents")⟩
    else if 0 < cfgMaxDepth config ∧ cfgMaxDepth config <
        getNodeDepth nodes sourceId + 1 + getNodeHeight nodes targetId then
      ⟨false, some ("This connection would exceed the maximum graph depth of " ++
        natToDecimalString (cfgMaxDepth config))⟩
    else
      match cfgCustom config with
      | none => ⟨true, none⟩
      | some cv =>
        match cv sourceId targetId nodes with
        | .ok true => ⟨true, none⟩
        | .ok false => ⟨false, some "Custom validation failed"⟩
        | .exn e => ⟨false, some ("Custom validation error: " ++ e)⟩
  | _, _ => ⟨false, some "Source or target node not found"⟩

/-- `ValidationService.validateReparent`.  Note the child-equals-parent
check comes first, before the existence check. -/
def validateReparent (nodes : List FlexiNode) (childId newParentId : String)
    (config : FlexiGraphConfig) : ValidationResult :=
  if childId = newParentId then
    ⟨false, some "Cannot reparent a node to itself"⟩
  else
    match lookupNode nodes childId, lookupNode nodes newParentId with
    | some _, some _ =>
      if !cfgAllowCycles config ∧ wouldCreateCycle nodes newParentId childId then
        ⟨false, some "This connection would create a circular dependency"⟩
      else if 0 < cfgMaxDepth config ∧ cfgMaxDepth config <
          getNodeDepth nodes newParentId + 1 + getNodeHeight nodes childId then
        ⟨false, some ("This connection would exceed the maximum graph depth of " ++
          natToDecimalString (cfgMaxDepth config))⟩
      else
        match cfgCustom config with
        | none => ⟨true, none⟩
        | some cv =>
          match cv newParentId childId nodes with
          | .ok true => ⟨true, none⟩
          | .ok false => ⟨false, some "Custom validation failed"⟩
          | .exn e => ⟨false, some ("Custom validation error: " ++ e)⟩
    | _, _ => ⟨false, some "Node not found"⟩

/-! ### HistoryService (`history.service.ts`) -/

/-- The two stacks and the dirty flag of `HistoryService`.  Stack tops
are at the `end` of the lists (JS `push`/`pop` at the array tail). -/
structure HistState where
  undoStack : List (List FlexiNode) := []
  redoStack : List (List FlexiNode) := []
  isDirty : Bool := false
  deriving Repr, DecidableEq

/-- The effective stack cap: `config.maxStackSize || 50`. -/
def effMaxSize (cfg : HistoryConfig) : Nat :=
  jsOrNat cfg.maxStackSize 50

/-- `HistoryService.saveState`: a no-op unless history is enabled;
otherwise pushes a snapshot, evicts from the bottom past the cap
(`newStack.slice(-maxSize)`), clears the redo stack and marks dirty. -/
def histSaveState : Option HistoryConfig → List FlexiNode → HistState → HistState
  | none, _, st => st
  | some c, currentNodes, st =>
    if !c.enabled then st
    else
      let stateSnapshot := deepCloneNodes currentNodes
      let newStack := st.undoStack ++ [stateSnapshot]
      let maxSize := effMaxSize c
      let undoStack' :=
        if maxSize < newStack.length then newStack.drop (newStack.length - maxSize)
        else newStack
      { undoStack := undoStack', redoStack := [], isDirty := true }

/-- `HistoryService.undo`: returns the most recent snapshot (or `none`
on an empty stack), pushing the current state onto the redo stack. -/
def histUndo (currentNodes : List FlexiNode) (st : HistState) :
    Option (List FlexiNode) × HistState :=
  match st.undoStack.getLast? with
  | none => (none, st)
  | some previousNodes =>
    let snapshot := deepCloneNodes currentNodes
    let undoStack' := st.undoStack.dropLast
    (some previousNodes,
      { undoStack := undoStack'
        redoStack := st.redoStack ++ [snapshot]
        isDirty := if undoStack'.isEmpty then false else st.isDirty })

/-- `HistoryService.redo`: the mirror of `undo`. -/
def histRedo (currentNodes : List FlexiNode) (st : HistState) :
    Option (List FlexiNode) × HistState :=
  match st.redoStack.getLast? with
  | none => (none, st)
  | some nextNodes =>
    (some nextNodes,
      { undoStack := st.undoStack ++ [deepCloneNodes currentNodes]
        redoStack := st.redoStack.dropLast
        isDirty := true })

/-! ### FlexiGraphService (`flexigraph.service.ts`) -/

/-- The service's reactive state: the node collection, the configuration
and the delegated history state. -/
structure ServiceState where
  nodes : List FlexiNode := []
  config : FlexiGraphConfig := DEFAULT_FLEXIGRAPH_CONFIG
  hist : HistState := {}

/-- `FlexiGraphService.saveState`. -/
def svcSaveState (st : ServiceState) : ServiceState :=
  { st with hist := histSaveState st.config.history st.nodes st.hist }

/-- `FlexiGraphService.undo`: on success the returned snapshot becomes
the current node collection. -/
def svcUndo (st : ServiceState) : Option (List FlexiNode) × ServiceState :=
  match histUndo st.nodes st.hist with
  | (none, h') => (none, { st with hist := h' })
  | (some prev, h') => (some prev, { st with nodes := prev, hist := h' })

/-- `FlexiGraphService.redo`. -/
def svcRedo (st : ServiceState) : Option (List FlexiNode) × ServiceState :=
  match histRedo st.nodes st.hist with
  | (none, h') => (none, { st with hist := h' })
  | (some next, h') => (some next, { st with nodes := next, hist := h' })

/-- JS truthiness of the optional `node.id` argument (absent or the
empty string are falsy). -/
def jsTruthyStr (o : Option String) : Bool :=
  match o with
  | none => false
  | some s => s ≠ ""

/-- `FlexiGraphService.addNode`: rejects a truthy explicit id that
already names a node (before any snapshot); otherwise snapshots once
and appends the new node, generating an id when none was given. -/
def svcAddNode (st : ServiceState) (nid : Option String) (lbl : String)
    (pids : Option (List String)) : Option FlexiNode × ServiceState :=
  if jsTruthyStr nid ∧ (lookupNode st.nodes (nid.getD "")).isSome then (none, st)
  else
    let st1 := svcSaveState st
    let newId := if jsTruthyStr nid then nid.getD "" else generateNodeId st.nodes
    let newNode : FlexiNode := ⟨newId, lbl, pids.getD []⟩
    (some newNode, { st1 with nodes := st1.nodes ++ [newNode] })

/-- A `Partial<FlexiNode>` update object (absent fields leave the node's
fields unchanged under the `{...n, ...updates}` spread). -/
structure NodeUpdate where
  id : Option String := none
  label : Option String := none
  parentIds : Option (List String) := none

/-- `{...n, ...updates}`. -/
def applyUpdate (n : FlexiNode) (u : NodeUpdate) : FlexiNode where
  id := u.id.getD n.id
  label := u.label.getD n.label
  parentIds := u.parentIds.getD n.parentIds

/-- `FlexiGraphService.updateNode`. -/
def svcUpdateNode (st : ServiceState) (id : String) (u : NodeUpdate) :
    Option FlexiNode × ServiceState :=
  match lookupNode st.nodes id with
  | none => (none, st)
  | some _ =>
    let st1 := svcSaveState st
    let nodes' := st1.nodes.map (fun n => if n.id = id then applyUpdate n u else n)
    (lookupNode nodes' id, { st1 with nodes := nodes' })

/-- `FlexiGraphService.removeNode`: one snapshot, then one update that
filters the node out and strips its id from every remaining node's
`parentIds` (the emitted link-remove events are elided). -/
def svcRemoveNode (st : ServiceState) (id : String) : Bool × ServiceState :=
  match lookupNode st.nodes id with
  | none => (false, st)
  | some _ =>
    let st1 := svcSaveState st
    let filtered := st1.nodes.filter (fun n => n.id ≠ id)
    let nodes' := filtered.map (fun n =>
      if id ∈ n.parentIds then
        { n with parentIds := n.parentIds.filter (fun pid => pid ≠ id) }
      else n)
    (true, { st1 with nodes := nodes' })

/-- `FlexiGraphService.addParent` (with its default `validate = true`):
the await of `validateEdge` is modelled by the pure result. -/
def svcAddParent (st : ServiceState) (childId parentId : String)
    (validate : Bool) : Bool × ServiceState :=
  if validate ∧ (validateEdge st.nodes parentId childId st.config).isValid = false then
    (false, st)
  else
    if ¬validate ∧ ((lookupNode st.nodes childId).isNone ∨
        ((lookupNode st.nodes childId).map
          (fun c => decide (parentId ∈ c.parentIds))).getD false) then
      (false, st)
    else
      let st1 := svcSaveState st
      let nodes' := st1.nodes.map (fun n =>
        if n.id = childId then { n with parentIds := n.parentIds ++ [parentId] } else n)
      (true, { st1 with nodes := nodes' })

/-- `FlexiGraphService.removeParent`. -/
def svcRemoveParent (st : ServiceState) (childId parentId : String) :
    Bool × ServiceState :=
  match lookupNode st.nodes childId with
  | none => (false, st)
  | some child =>
    if parentId ∉ child.parentIds then (false, st)
    else
      let st1 := svcSaveState st
      let nodes' := st1.nodes.map (fun n =>
        if n.id = childId then
          { n with parentIds := n.parentIds.filter (fun pid => pid ≠ parentId) }
        else n)
      (true, { st1 with nodes := nodes' })

/-- `res.error?.includes(pat)` (JS substring containment; an undefined
error is falsy). -/
def jsIncludesSub (s pat : String) : Bool :=
  decide (pat.data <:+: s.data)

/-- The per-parent acceptance test in `setParents`' validation loop:
a parent is let through when `validateEdge` accepts, or failed with
`'Edge already exists'`, or with an error containing `'more than'`. -/
def setParentsLoopOk (nodes : List FlexiNode) (childId : String)
    (pids : List String) (config : FlexiGraphConfig) : Bool :=
  pids.all (fun parentId =>
    let res := validateEdge nodes parentId childId config
    res.isValid ∨ res.error = some "Edge already exists" ∨
      (res.error.map (fun e => jsIncludesSub e "more than")).getD false)

/-- `FlexiGraphService.setParents` (with its default `validate = true`);
`reparent(childId, p)` is `setParents(childId, [p])`. -/
def svcSetParents (st : ServiceState) (childId : String) (pids : List String)
    (validate : Bool) : Bool × ServiceState :=
  match lookupNode st.nodes childId with
  | none => (false, st)
  | some _ =>
    if validate ∧ (setParentsLoopOk st.nodes childId pids st.config = false ∨
        (0 < cfgMaxParents st.config ∧ cfgMaxParents st.config < pids.length)) then
      (false, st)
    else
      let st1 := svcSaveState st
      let nodes' := st1.nodes.map (fun n =>
        if n.id = childId then { n with parentIds := pids } else n)
      (true, { st1 with nodes := nodes' })

/-- `FlexiGraphService.detachNode`. -/
def svcDetachNode (st : ServiceState) (nodeId : String) : Bool × ServiceState :=
  match lookupNode st.nodes nodeId with
  | none => (false, st)
  | some node =>
    if node.parentIds.isEmpty then (false, st)
    else
      let st1 := svcSaveState st
      let nodes' := st1.nodes.map (fun n =>
        if n.id = nodeId then { n with parentIds := [] } else n)
      (true, { st1 with nodes := nodes' })

/-- The seven mutating operations of `FlexiGraphService` covered by the
undo/redo round-trip property. -/
inductive MutationOp where
  | addNode (nid : Option String) (lbl : String) (pids : Option (List String))
  | updateNode (id : String) (u : NodeUpdate)
  | removeNode (id : String)
  | addParent (childId parentId : String)
  | removeParent (childId parentId : String)
  | setParents (childId : String) (pids : List String)
  | detachNode (id : String)

/-- Apply one mutation (success flag plus resulting state); `addParent`
and `setParents` run with their default `validate = true`. -/
def applyOp : MutationOp → ServiceState → Bool × ServiceState
  | .addNode nid lbl pids, st =>
    ((svcAddNode st nid lbl pids).1.isSome, (svcAddNode st nid lbl pids).2)
  | .updateNode id u, st =>
    ((svcUpdateNode st id u).1.isSome, (svcUpdateNode st id u).2)
  | .removeNode id, st => svcRemoveNode st id
  | .addParent c p, st => svcAddParent st c p true
  | .removeParent c p, st => svcRemoveParent st c p
  | .setParents c ps, st => svcSetParents st c ps true
  | .detachNode id, st => svcDetachNode st id

/-- History-enabled predicate: `config.history?.enabled`. -/
def histEnabled (cfg : FlexiGraphConfig) : Bool :=
  (cfg.history.map (fun h => h.enabled)).getD false

/-! ### Undo/redo round trip (claim C3) -/

theorem effMaxSize_pos (c : HistoryConfig) : 1 ≤ effMaxSize c := by
  unfold effMaxSize jsOrNat
  rcases c.maxStackSize with _ | (_ | k) <;> simp

theorem histSaveState_enabled {c : HistoryConfig} (hce : c.enabled = true)
    (nodes : List FlexiNode) (h : HistState) :
    (histSaveState (some c) nodes h).redoStack = [] ∧
    (histSaveState (some c) nodes h).undoStack.getLast? = some nodes := by
  rw [histSaveState, hce]
  simp only [Bool.not_true, Bool.false_eq_true, if_false, deepCloneNodes]
  refine ⟨by trivial, ?_⟩
  by_cases hcap : effMaxSize c < (h.undoStack ++ [nodes]).length
  · rw [if_pos hcap]
    have hmax := effMaxSize_pos c
    have hlen : (h.undoStack ++ [nodes]).length = h.undoStack.length + 1 := by simp
    have hle : (h.undoStack ++ [nodes]).length - effMaxSize c ≤ h.undoStack.length := by
      omega
    rw [List.drop_append_of_le_length hle]
    exact List.getLast?_concat _
  · rw [if_neg hcap]
    exact List.getLast?_concat _

theorem svcUndo_of_getLast {st : ServiceState} {prev : List FlexiNode}
    (h : st.hist.undoStack.getLast? = some prev) :
    (svcUndo st).2.nodes = prev ∧
    (svcUndo st).2.hist.redoStack = st.hist.redoStack ++ [st.nodes] ∧
    (svcUndo st).2.config = st.config := by
  unfold svcUndo histUndo
  rw [h]
  simp [deepCloneNodes]

theorem svcRedo_of_getLast {st : ServiceState} {next : List FlexiNode}
    (h : st.hist.redoStack.getLast? = some next) :
    (svcRedo st).2.nodes = next := by
  unfold svcRedo histRedo
  rw [h]

/-- Round trip for any state of the shape “snapshot then mutate the
node collection”. -/
theorem roundtrip_shape (st : ServiceState) (N : List FlexiNode)
    (he : histEnabled st.config = true) :
    (svcUndo { svcSaveState st with nodes := N }).2.nodes = st.nodes ∧
    (svcRedo (svcUndo { svcSaveState st with nodes := N }).2).2.nodes = N := by
  obtain ⟨c, hc, hce⟩ : ∃ c, st.config.history = some c ∧ c.enabled = true := by
    unfold histEnabled at he
    cases hh : st.config.history with
    | none => rw [hh] at he; simp at he
    | some c => rw [hh] at he; simp at he; exact ⟨c, rfl, he⟩
  obtain ⟨hredo, hlast⟩ := histSaveState_enabled hce st.nodes st.hist
  have hhist : ({ svcSaveState st with nodes := N } : ServiceState).hist =
      histSaveState (some c) st.nodes st.hist := by
    simp [svcSaveState, hc]
  have h1 : ({ svcSaveState st with nodes := N } : ServiceState).hist.undoStack.getLast? =
      some st.nodes := by rw [hhist]; exact hlast
  obtain ⟨hn, hr, _⟩ := svcUndo_of_getLast h1
  refine ⟨hn, ?_⟩
  have h2 : (svcUndo { svcSaveState st with nodes := N }).2.hist.redoStack.getLast? =
      some N := by
    rw [hr, hhist, hredo]
    simp
  exact svcRedo_of_getLast h2

/-- Every accepted mutation produces a snapshot-then-mutate state. -/
theorem applyOp_success_shape (op : MutationOp) (st st' : ServiceState)
    (h : applyOp op st = (true, st')) :
    st' = { svcSaveState st with nodes := st'.nodes } := by
  rw [Prod.ext_iff] at h
  obtain ⟨h1, h2⟩ := h
  subst h2
  cases op with
  | addNode nid lbl pids =>
    simp only [applyOp] at h1 ⊢
    revert h1
    unfold svcAddNode
    split
    · intro h1; simp at h1
    · intro _; rfl
  | updateNode id u =>
    simp only [applyOp] at h1 ⊢
    revert h1
    unfold svcUpdateNode
    split
    · intro h1; simp at h1
    · intro _; rfl
  | removeNode id =>
    simp only [applyOp] at h1 ⊢
    revert h1
    unfold svcRemoveNode
    split
    · intro h1; simp at h1
    · intro _; rfl
  | addParent c p =>
    simp only [applyOp] at h1 ⊢
    revert h1
    unfold svcAddParent
    split
    · intro h1; simp at h1
    · split
      · intro h1; simp at h1
      · intro _; rfl
  | removeParent c p =>
    simp only [applyOp] at h1 ⊢
    revert h1
    unfold svcRemoveParent
    split
    · intro h1; simp at h1
    · split
      · intro h1; simp at h1
      · intro _; rfl
  | setParents c ps =>
    simp only [applyOp] at h1 ⊢
    revert h1
    unfold svcSetParents
    split
    · intro h1; simp at h1
    · split
      · intro h1; simp at h1
      · intro _; rfl
  | detachNode id =>
    simp only [applyOp] at h1 ⊢
    revert h1
    unfold svcDetachNode
    split
    · intro h1; simp at h1
    · split
      · intro h1; simp at h1
      · intro _; rfl

/-- **C3.** With history enabled, after any accepted mutation `M`,
`undo()` restores the pre-`M` node collection and a following `redo()`
restores the post-`M` collection (deep equality is equality of the
embedded plain values). -/
theorem mutation_undo_redo_roundtrip (st : ServiceState) (op : MutationOp)
    (st' : ServiceState) (he : histEnabled st.config = true)
    (h : applyOp op st = (true, st')) :
    (svcUndo st').2.nodes = st.nodes ∧
    (svcRedo (svcUndo st').2).2.nodes = st'.nodes := by
  have hshape := applyOp_success_shape op st st' h
  rw [hshape]
  exact roundtrip_shape st st'.nodes he

/-- Concrete instance used to discharge the hypotheses of
`mutation_undo_redo_roundtrip`. -/
def rtW1 : ServiceState := { nodes := [⟨"a", "A", []⟩] }

def rtW2 : ServiceState := (applyOp (.removeNode "a") rtW1).2

theorem mutation_undo_redo_roundtrip_witness :
    (svcUndo rtW2).2.nodes = rtW1.nodes ∧
    (svcRedo (svcUndo rtW2).2).2.nodes = rtW2.nodes :=
  mutation_undo_redo_roundtrip rtW1 (.removeNode "a") rtW2 rfl rfl

/-! ### removeNode (claim C4) -/

/-- **C4.** For a present node id `X`, `removeNode(X)` returns `true`,
removes node `X`, strips `X` from every remaining node's `parentIds`
(leaving other fields intact), and does all of it as one mutation
preceded by a single history snapshot of the pre-mutation collection. -/
theorem removeNode_spec (st : ServiceState) (X : String)
    (_huniq : (st.nodes.map (fun n => n.id)).Nodup)
    (hpresent : (lookupNode st.nodes X).isSome = true) :
    (svcRemoveNode st X).1 = true ∧
    (∀ n ∈ (svcRemoveNode st X).2.nodes, n.id ≠ X ∧ X ∉ n.parentIds) ∧
    (∀ n ∈ st.nodes, n.id ≠ X →
      ∃ n' ∈ (svcRemoveNode st X).2.nodes, n'.id = n.id ∧ n'.label = n.label ∧
        n'.parentIds = n.parentIds.filter (fun pid => pid ≠ X)) ∧
    (svcRemoveNode st X).2.hist = histSaveState st.config.history st.nodes st.hist ∧
    (svcRemoveNode st X).2.config = st.config := by
  clear _huniq
  obtain ⟨nX, hnX⟩ := Option.isSome_iff_exists.1 hpresent
  unfold svcRemoveNode
  rw [hnX]
  refine ⟨rfl, ?_, ?_, rfl, rfl⟩
  · intro n hn
    simp only [List.mem_map, List.mem_filter, svcSaveState] at hn
    obtain ⟨m, ⟨hm, hmid⟩, rfl⟩ := hn
    by_cases hx : X ∈ m.parentIds
    · rw [if_pos hx]
      refine ⟨by simpa using hmid, ?_⟩
      simp [List.mem_filter]
    · rw [if_neg hx]
      exact ⟨by simpa using hmid, hx⟩
  · intro n hn hne
    refine ⟨if X ∈ n.parentIds then
        { n with parentIds := n.parentIds.filter (fun pid => pid ≠ X) } else n, ?_, ?_⟩
    · simp only [List.mem_map, svcSaveState]
      refine ⟨n, List.mem_filter.2 ⟨hn, by simpa using hne⟩, rfl⟩
    · by_cases hx : X ∈ n.parentIds
      · rw [if_pos hx]
        exact ⟨rfl, rfl, rfl⟩
      · rw [if_neg hx]
        refine ⟨rfl, rfl, ?_⟩
        refine (List.filter_eq_self.2 ?_).symm
        intro a ha
        simp only [decide_eq_true_eq]
        intro hax
        exact hx (hax ▸ ha)

def rmWitnessSt : ServiceState := { nodes := [⟨"a", "A", []⟩, ⟨"b", "B", ["a"]⟩] }

theorem removeNode_spec_witness :
    (svcRemoveNode rmWitnessSt "a").1 = true ∧
    (∀ n ∈ (svcRemoveNode rmWitnessSt "a").2.nodes, n.id ≠ "a" ∧ "a" ∉ n.parentIds) ∧
    (∀ n ∈ rmWitnessSt.nodes, n.id ≠ "a" →
      ∃ n' ∈ (svcRemoveNode rmWitnessSt "a").2.nodes, n'.id = n.id ∧ n'.label = n.label ∧
        n'.parentIds = n.parentIds.filter (fun pid => pid ≠ "a")) ∧
    (svcRemoveNode rmWitnessSt "a").2.hist =
      histSaveState rmWitnessSt.config.history rmWitnessSt.nodes rmWitnessSt.hist ∧
    (svcRemoveNode rmWitnessSt "a").2.config = rmWitnessSt.config :=
  removeNode_spec rmWitnessSt "a" (by decide) (by decide)

/-! ### Bounded history stacks (claim C6) -/

/-- One `saveState`/`undo`/`redo` call on the history state, under a
fixed configuration (`saveState` is always handed the service's
configured history section). -/
inductive HistStep (cfg : HistoryConfig) : HistState → HistState → Prop
  | save (nodes : List FlexiNode) (st : HistState) :
      HistStep cfg st (histSaveState (some cfg) nodes st)
  | undo (nodes : List FlexiNode) (st : HistState) :
      HistStep cfg st (histUndo nodes st).2
  | redo (nodes : List FlexiNode) (st : HistState) :
      HistStep cfg st (histRedo nodes st).2

/-- `saveState` leaves the undo stack at (at most) the cap with an empty
redo stack, so the combined size is an invariant bound. -/
theorem histStep_bound {cfg : HistoryConfig} {s1 s2 : HistState}
    (h : HistStep cfg s1 s2)
    (hb : s1.undoStack.length + s1.redoStack.length ≤ effMaxSize cfg) :
    s2.undoStack.length + s2.redoStack.length ≤ effMaxSize cfg := by
  cases h with
  | save nodes =>
    rw [histSaveState]
    by_cases he : cfg.enabled
    · rw [he]
      simp only [Bool.not_true, Bool.false_eq_true, if_false]
      by_cases hcap : effMaxSize cfg < (s1.undoStack ++ [deepCloneNodes nodes]).length
      · rw [if_pos hcap]
        simp only [List.length_drop, List.length_append, List.length_nil,
          List.length_cons, List.length]
        omega
      · rw [if_neg hcap]
        simp only [List.length_append, List.length_cons, List.length_nil] at hcap ⊢
        omega
    · rw [Bool.not_eq_true] at he
      rw [he]
      simpa using hb
  | undo nodes =>
    unfold histUndo
    cases hl : s1.undoStack.getLast? with
    | none => simpa using hb
    | some prev =>
      have hne : s1.undoStack ≠ [] := by
        intro hemp
        rw [hemp] at hl
        simp at hl
      have hlen : 1 ≤ s1.undoStack.length := by
        cases hu : s1.undoStack with
        | nil => exact absurd hu hne
        | cons a l => simp
      simp only [List.length_dropLast, List.length_append, List.length_cons,
        List.length_nil]
      omega
  | redo nodes =>
    unfold histRedo
    cases hl : s1.redoStack.getLast? with
    | none => simpa using hb
    | some next =>
      have hne : s1.redoStack ≠ [] := by
        intro hemp
        rw [hemp] at hl
        simp at hl
      have hlen : 1 ≤ s1.redoStack.length := by
        cases hu : s1.redoStack with
        | nil => exact absurd hu hne
        | cons a l => simp
      simp only [List.length_dropLast, List.length_append, List.length_cons,
        List.length_nil]
      omega

/-- **C6.** Starting from a cleared history, after any sequence of
`saveState`/`undo`/`redo` calls neither stack exceeds the configured cap
(`maxStackSize || 50`); a `saveState` past the cap keeps exactly the most
recent `effMaxSize cfg` snapshots, dropping from the bottom; `saveState`
is the identity when history is disabled; and the cap defaults to 50
(both for an absent `maxStackSize` and in `DEFAULT_FLEXIGRAPH_CONFIG`). -/
theorem history_stacks_spec (cfg : HistoryConfig) (st : HistState)
    (htrace : Relation.ReflTransGen (HistStep cfg) {} st) :
    (st.undoStack.length ≤ effMaxSize cfg ∧
     st.redoStack.length ≤ effMaxSize cfg) ∧
    (∀ nodes, cfg.enabled = false → histSaveState (some cfg) nodes st = st) ∧
    (∀ nodes, cfg.enabled = true →
      (histSaveState (some cfg) nodes st).undoStack =
        (st.undoStack ++ [nodes]).drop (st.undoStack.length + 1 - effMaxSize cfg)) ∧
    effMaxSize { enabled := true, maxStackSize := none } = 50 ∧
    (DEFAULT_FLEXIGRAPH_CONFIG.history.map (fun h => effMaxSize h)).getD 0 = 50 := by
  refine ⟨?_, ?_, ?_, rfl, rfl⟩
  · have hb : st.undoStack.length + st.redoStack.length ≤ effMaxSize cfg := by
      induction htrace with
      | refl => simp
      | tail _ hstep ih => exact histStep_bound hstep ih
    omega
  · intro nodes hdis
    rw [histSaveState, hdis]
    simp
  · intro nodes hen
    rw [histSaveState, hen]
    simp only [Bool.not_true, Bool.false_eq_true, if_false, deepCloneNodes]
    by_cases hcap : effMaxSize cfg < (st.undoStack ++ [nodes]).length
    · rw [if_pos hcap]
      simp only [List.length_append, List.length_cons, List.length_nil]
    · rw [if_neg hcap]
      simp only [List.length_append, List.length_cons, List.length_nil] at hcap
      have : st.undoStack.length + 1 - effMaxSize cfg = 0 := by omega
      rw [this, List.drop_zero]

theorem history_stacks_spec_witness :
    let cfg : HistoryConfig := { enabled := true, maxStackSize := some 2 }
    let st := histSaveState (some cfg) [] {}
    (st.undoStack.length ≤ effMaxSize cfg ∧
     st.redoStack.length ≤ effMaxSize cfg) ∧
    (∀ nodes, cfg.enabled = false → histSaveState (some cfg) nodes st = st) ∧
    (∀ nodes, cfg.enabled = true →
      (histSaveState (some cfg) nodes st).undoStack =
        (st.undoStack ++ [nodes]).drop (st.undoStack.length + 1 - effMaxSize cfg)) ∧
    effMaxSize { enabled := true, maxStackSize := none } = 50 ∧
    (DEFAULT_FLEXIGRAPH_CONFIG.history.map (fun h => effMaxSize h)).getD 0 = 50 :=
  history_stacks_spec { enabled := true, maxStackSize := some 2 } _
    (Relation.ReflTransGen.single (HistStep.save [] {}))

/-! ### addNode and id generation (claim C10) -/

theorem lookupNode_isSome_iff (nodes : List FlexiNode) (id : String) :
    (lookupNode nodes id).isSome = true ↔ id ∈ nodes.map (fun n => n.id) := by
  simp only [lookupNode, List.find?_isSome, List.mem_map, decide_eq_true_eq]

theorem isUniqueId_iff (nodes : List FlexiNode) (id : String) :
    isUniqueId nodes id = true ↔ id ∉ nodes.map (fun n => n.id) := by
  simp only [isUniqueId, Bool.not_eq_true', List.any_eq_false, decide_eq_true_eq,
    List.mem_map]
  aesop

/-- **C10.** `addNode` with a (truthy) explicit id that is already
present returns `null` and leaves the whole service state — nodes and
both history stacks — unchanged; `generateNodeId` always produces an id
distinct from every existing node id; consequently id uniqueness is
preserved by every `addNode` call, accepted or rejected. -/
theorem addNode_spec :
    (∀ (st : ServiceState) (id lbl : String) (pids : Option (List String)),
      id ≠ "" → (lookupNode st.nodes id).isSome = true →
      svcAddNode st (some id) lbl pids = (none, st)) ∧
    (∀ (nodes : List FlexiNode) (pre : String),
      isUniqueId nodes (generateNodeId nodes pre) = true) ∧
    (∀ (st : ServiceState) (nid : Option String) (lbl : String)
        (pids : Option (List String)),
      (st.nodes.map (fun n => n.id)).Nodup →
      (((svcAddNode st nid lbl pids).2.nodes).map (fun n => n.id)).Nodup) := by
  refine ⟨?_, generateNodeId_unique, ?_⟩
  · intro st id lbl pids hne hsome
    unfold svcAddNode
    rw [if_pos]
    exact ⟨by simpa [jsTruthyStr] using hne, by simpa using hsome⟩
  · intro st nid lbl pids hnodup
    unfold svcAddNode
    by_cases hrej : jsTruthyStr nid = true ∧ (lookupNode st.nodes (nid.getD "")).isSome = true
    · rw [if_pos hrej]
      exact hnodup
    · rw [if_neg hrej]
      simp only [svcSaveState, List.map_append, List.map_cons, List.map_nil]
      rw [List.nodup_append]
      refine ⟨hnodup, List.nodup_singleton _, ?_⟩
      intro a ha hmem
      simp only [List.mem_singleton] at hmem
      subst hmem
      by_cases htru : jsTruthyStr nid = true
      · rw [if_pos htru] at ha
        exact hrej ⟨htru, (lookupNode_isSome_iff st.nodes (nid.getD "")).2 ha⟩
      · rw [Bool.not_eq_true] at htru
        rw [if_neg (by simp [htru])] at ha
        exact (isUniqueId_iff st.nodes (generateNodeId st.nodes "node")).1
          (generateNodeId_unique st.nodes "node") ha

def addWitnessSt : ServiceState := { nodes := [⟨"a", "A", []⟩] }

theorem addNode_spec_witness :
    svcAddNode addWitnessSt (some "a") "B" none = (none, addWitnessSt) ∧
    isUniqueId addWitnessSt.nodes (generateNodeId addWitnessSt.nodes "node") = true ∧
    (((svcAddNode addWitnessSt none "B" none).2.nodes).map (fun n => n.id)).Nodup :=
  ⟨addNode_spec.1 addWitnessSt "a" "B" none (by decide) (by decide),
   addNode_spec.2.1 addWitnessSt.nodes "node",
   addNode_spec.2.2 addWitnessSt none "B" none (by decide)⟩

/-! ### Validation check order (claim C7) -/

/-- Run a list of (fails?, message) checks in order, short-circuiting on
the first failure — the spec's description of the validation pipelines. -/
def firstFailure : List (Bool × String) → ValidationResult
  | [] => ⟨true, none⟩
  | (bad, msg) :: rest => if bad then ⟨false, some msg⟩ else firstFailure rest

/-- Outcome of the custom-predicate check as a (fails?, message) pair
(never reached by `firstFailure` when an earlier check failed). -/
def customCheck (nodes : List FlexiNode) (cfg : FlexiGraphConfig)
    (s t : String) : Bool × String :=
  match cfgCustom cfg with
  | none => (false, "")
  | some cv =>
    match cv s t nodes with
    | .ok true => (false, "")
    | .ok false => (true, "Custom validation failed")
    | .exn e => (true, "Custom validation error: " ++ e)

/-- The seven `validateEdge` checks, in the spec's order, each as an
independent (fails?, message) pair. -/
def validateEdgeChecks (nodes : List FlexiNode) (s t : String)
    (cfg : FlexiGraphConfig) : List (Bool × String) :=
  [((lookupNode nodes s).isNone || (lookupNode nodes t).isNone,
    "Source or target node not found"),
   ((match lookupNode nodes t with
     | some target => decide (s ∈ target.parentIds)
     | none => false),
    "Edge already exists"),
   (decide ((!cfgAllowSelfLoops cfg) = true ∧ s = t), "Self-loops are not allowed"),
   (decide ((!cfgAllowCycles cfg) = true ∧ s ≠ t ∧
      wouldCreateCycle nodes s t = true), "Cycle detected"),
   (decide (0 < cfgMaxParents cfg) &&
      (match lookupNode nodes t with
       | some target => decide (cfgMaxParents cfg ≤ target.parentIds.length)
       | none => false),
    "Node cannot have more than " ++ natToDecimalString (cfgMaxParents cfg) ++
      " parents"),
   (decide (0 < cfgMaxDepth cfg ∧ cfgMaxDepth cfg <
      getNodeDepth nodes s + 1 + getNodeHeight nodes t),
    "This connection would exceed the maximum graph depth of " ++
      natToDecimalString (cfgMaxDepth cfg)),
   customCheck nodes cfg s t]

/-- The `validateReparent` checks in the order the code actually runs
them: the self check first (unconditional), then existence, cycle,
max-depth, custom. -/
def validateReparentChecks (nodes : List FlexiNode) (childId newParentId : String)
    (cfg : FlexiGraphConfig) : List (Bool × String) :=
  [(decide (childId = newParentId), "Cannot reparent a node to itself"),
   ((lookupNode nodes childId).isNone || (lookupNode nodes newParentId).isNone,
    "Node not found"),
   (decide ((!cfgAllowCycles cfg) = true ∧
      wouldCreateCycle nodes newParentId childId = true),
    "This connection would create a circular dependency"),
   (decide (0 < cfgMaxDepth cfg ∧ cfgMaxDepth cfg <
      getNodeDepth nodes newParentId + 1 + getNodeHeight nodes childId),
    "This connection would exceed the maximum graph depth of " ++
      natToDecimalString (cfgMaxDepth cfg)),
   customCheck nodes cfg newParentId childId]

theorem validateEdge_eq_firstFailure (nodes : List FlexiNode) (s t : String)
    (cfg : FlexiGraphConfig) :
    validateEdge nodes s t cfg = firstFailure (validateEdgeChecks nodes s t cfg) := by
  unfold validateEdge validateEdgeChecks
  cases hs : lookupNode nodes s with
  | none =>
    cases ht : lookupNode nodes t with
    | none => simp [firstFailure]
    | some target => simp [firstFailure]
  | some source =>
    cases ht : lookupNode nodes t with
    | none => simp [firstFailure]
    | some target =>
      simp only [Option.isNone_some, Bool.or_self, Bool.false_or]
      by_cases h1 : s ∈ target.parentIds
      · simp [firstFailure, h1]
      · rw [if_neg h1]
        simp only [h1, decide_False]
        by_cases h2 : (!cfgAllowSelfLoops cfg) = true ∧ s = t
        · simp [firstFailure, h2]
        · rw [if_neg h2]
          simp only [h2, decide_False]
          by_cases h3 : (!cfgAllowCycles cfg) = true ∧ s ≠ t ∧
              wouldCreateCycle nodes s t = true
          · simp [firstFailure, h3]
          · rw [if_neg (by intro hc; exact h3 ⟨hc.1, hc.2.1, hc.2.2⟩)]
            simp only [h3, decide_False]
            by_cases h4 : 0 < cfgMaxParents cfg ∧
                cfgMaxParents cfg ≤ target.parentIds.length
            · simp [firstFailure, h4.1, h4.2]
            · rw [if_neg h4]
              have h4b : (decide (0 < cfgMaxParents cfg) &&
                  decide (cfgMaxParents cfg ≤ target.parentIds.length)) = false := by
                rw [Bool.and_eq_false_iff]
                by_cases hp : 0 < cfgMaxParents cfg
                · refine Or.inr ?_
                  simp only [decide_eq_false_iff_not]
                  intro hle
                  exact h4 ⟨hp, hle⟩
                · exact Or.inl (by simpa using hp)
              simp only [h4b]
              by_cases h5 : 0 < cfgMaxDepth cfg ∧ cfgMaxDepth cfg <
                  getNodeDepth nodes s + 1 + getNodeHeight nodes t
              · simp [firstFailure, h5]
              · rw [if_neg h5]
                simp only [h5, decide_False]
                cases hcv : cfgCustom cfg with
                | none => simp [firstFailure, customCheck, hcv]
                | some cv =>
                  cases hres : cv s t nodes with
                  | ok b => cases b <;> simp [firstFailure, customCheck, hcv, hres]
                  | exn e => simp [firstFailure, customCheck, hcv, hres]

theorem validateReparent_eq_firstFailure (nodes : List FlexiNode)
    (childId newParentId : String) (cfg : FlexiGraphConfig) :
    validateReparent nodes childId newParentId cfg =
      firstFailure (validateReparentChecks nodes childId newParentId cfg) := by
  unfold validateReparent validateReparentChecks
  by_cases h0 : childId = newParentId
  · simp [firstFailure, h0]
  · rw [if_neg h0]
    simp only [h0, decide_False]
    cases hc : lookupNode nodes childId with
    | none =>
      cases hp : lookupNode nodes newParentId with
      | none => simp [firstFailure]
      | some parent => simp [firstFailure]
    | some child =>
      cases hp : lookupNode nodes newParentId with
      | none => simp [firstFailure]
      | some parent =>
        simp only [Option.isNone_some, Bool.or_self, Bool.false_or]
        by_cases h1 : (!cfgAllowCycles cfg) = true ∧
            wouldCreateCycle nodes newParentId childId = true
        · simp [firstFailure, h1]
        · rw [if_neg h1]
          simp only [h1, decide_False]
          by_cases h2 : 0 < cfgMaxDepth cfg ∧ cfgMaxDepth cfg <
              getNodeDepth nodes newParentId + 1 + getNodeHeight nodes childId
          · simp [firstFailure, h2]
          · rw [if_neg h2]
            simp only [h2, decide_False]
            cases hcv : cfgCustom cfg with
            | none => simp [firstFailure, customCheck, hcv]
            | some cv =>
              cases hres : cv newParentId childId nodes with
              | ok b => cases b <;> simp [firstFailure, customCheck, hcv, hres]
              | exn e => simp [firstFailure, customCheck, hcv, hres]

/-- Counterexample to C7 as stated: on an empty collection,
`validateReparent('x','x')` reports the self check, not `Node not
found`, so existence is not checked before the self check there. -/
theorem validateReparent_order_counterexample :
    lookupNode ([] : List FlexiNode) "x" = none ∧
    validateReparent [] "x" "x" DEFAULT_FLEXIGRAPH_CONFIG =
      ⟨false, some "Cannot reparent a node to itself"⟩ ∧
    validateReparent [] "x" "x" DEFAULT_FLEXIGRAPH_CONFIG ≠
      ⟨false, some "Node not found"⟩ :=
  ⟨rfl, rfl, by decide⟩

/-- **C7 (amended).** Both validators run fixed short-circuiting check
pipelines: `validateEdge` in the spec's order (existence, duplicate,
self-loop vs policy, cycle, max-parents, max-depth, custom);
`validateReparent` with the unconditional self check first, then
existence, cycle, max-depth, custom. -/
theorem validation_check_order (nodes : List FlexiNode) (s t : String)
    (cfg : FlexiGraphConfig) :
    validateEdge nodes s t cfg = firstFailure (validateEdgeChecks nodes s t cfg) ∧
    validateReparent nodes s t cfg =
      firstFailure (validateReparentChecks nodes s t cfg) :=
  ⟨validateEdge_eq_firstFailure nodes s t cfg,
   validateReparent_eq_firstFailure nodes s t cfg⟩

/-! ### Non-termination of depth/height on cyclic inputs (claim C8) -/

/-- The two-node cycle `a ⇄ b`. -/
def cyclicPairNodes : List FlexiNode := [⟨"a", "A", ["b"]⟩, ⟨"b", "B", ["a"]⟩]

/-- `getNodeDepth`'s recursion never returns on the two-node cycle, for
any amount of fuel: the memo cache is only written on return, so the
mutual `a → b → a → …` recursion never terminates in the source
(`computeDepth` has no in-progress marking). -/
theorem computeDepthF_cyclic_none (fuel : Nat) :
    computeDepthF cyclicPairNodes fuel [] "a" = none ∧
    computeDepthF cyclicPairNodes fuel [] "b" = none := by
  induction fuel with
  | zero => exact ⟨rfl, rfl⟩
  | succ fuel ih =>
    obtain ⟨iha, ihb⟩ := ih
    constructor
    · have hstep : computeDepthF cyclicPairNodes (fuel + 1) [] "a" =
          (match (match computeDepthF cyclicPairNodes fuel [] "b" with
                  | none => none
                  | some (d, c') => some (([] : List Nat) ++ [d], c')) with
           | none => none
           | some (ds, c') =>
             some (ds.foldl max 0 + 1, ("a", ds.foldl max 0 + 1) :: c')) := rfl
      rw [hstep, ihb]
    · have hstep : computeDepthF cyclicPairNodes (fuel + 1) [] "b" =
          (match (match computeDepthF cyclicPairNodes fuel [] "a" with
                  | none => none
                  | some (d, c') => some (([] : List Nat) ++ [d], c')) with
           | none => none
           | some (ds, c') =>
             some (ds.foldl max 0 + 1, ("b", ds.foldl max 0 + 1) :: c')) := rfl
      rw [hstep, iha]

/-- **C8 (divergence witness).** No fuel lets `getNodeDepth`'s recursion
return on the already-cyclic input `[a ⇄ b]`: the source diverges where
the claim requires termination. -/
theorem getNodeDepth_cyclic_no_fuel_suffices (fuel : Nat) :
    computeDepthF cyclicPairNodes fuel [] "a" = none :=
  (computeDepthF_cyclic_none fuel).1

/-! ### Acyclicity preservation (claim C1) -/

/-- Edges of a collection after rewriting one node's `parentIds` with
`F` (the common shape of the `addParent` / `removeParent` /
`setParents` / `detachNode` update bodies). -/
theorem edgeP_map_modify {nodes : List FlexiNode} {childId : String}
    {F : List String → List String} {a b : String}
    (h : EdgeP (nodes.map (fun n =>
      if n.id = childId then { n with parentIds := F n.parentIds } else n)) a b) :
    ∃ m ∈ nodes, m.id = b ∧
      ((m.id ≠ childId ∧ a ∈ m.parentIds) ∨ (m.id = childId ∧ a ∈ F m.parentIds)) := by
  obtain ⟨n', hn', hid, hmem⟩ := h
  rw [List.mem_map] at hn'
  obtain ⟨m, hm, rfl⟩ := hn'
  by_cases hc : m.id = childId
  · rw [if_pos hc] at hid hmem
    exact ⟨m, hm, hid, Or.inr ⟨hc, hmem⟩⟩
  · rw [if_neg hc] at hid hmem
    exact ⟨m, hm, hid, Or.inl ⟨hc, hmem⟩⟩

theorem edgeP_addParent {nodes : List FlexiNode} {childId parentId : String} {a b : String}
    (h : EdgeP (nodes.map (fun n =>
      if n.id = childId then { n with parentIds := n.parentIds ++ [parentId] } else n)) a b) :
    EdgeP nodes a b ∨ (a ∈ ({parentId} : Set String) ∧ b = childId) := by
  obtain ⟨m, hm, hid, hcase⟩ := edgeP_map_modify (F := fun l => l ++ [parentId]) h
  rcases hcase with ⟨_, hmem⟩ | ⟨hc, hmem⟩
  · exact Or.inl ⟨m, hm, hid, hmem⟩
  · rcases List.mem_append.1 hmem with h1 | h1
    · exact Or.inl ⟨m, hm, hid, h1⟩
    · simp only [List.mem_singleton] at h1
      exact Or.inr ⟨by simp [h1], hid ▸ hc.symm ▸ rfl⟩

theorem edgeP_setParents {nodes : List FlexiNode} {childId : String}
    {pids : List String} {a b : String}
    (h : EdgeP (nodes.map (fun n =>
      if n.id = childId then { n with parentIds := pids } else n)) a b) :
    EdgeP nodes a b ∨ (a ∈ {x | x ∈ pids} ∧ b = childId) := by
  obtain ⟨m, hm, hid, hcase⟩ := edgeP_map_modify (F := fun _ => pids) h
  rcases hcase with ⟨_, hmem⟩ | ⟨hc, hmem⟩
  · exact Or.inl ⟨m, hm, hid, hmem⟩
  · exact Or.inr ⟨hmem, hid ▸ hc.symm ▸ rfl⟩

theorem edgeP_removeParent {nodes : List FlexiNode} {childId parentId : String}
    {a b : String}
    (h : EdgeP (nodes.map (fun n =>
      if n.id = childId then
        { n with parentIds := n.parentIds.filter (fun pid => pid ≠ parentId) }
      else n)) a b) :
    EdgeP nodes a b := by
  obtain ⟨m, hm, hid, hcase⟩ :=
    edgeP_map_modify (F := fun l => l.filter (fun pid => pid ≠ parentId)) h
  rcases hcase with ⟨_, hmem⟩ | ⟨_, hmem⟩
  · exact ⟨m, hm, hid, hmem⟩
  · exact ⟨m, hm, hid, (List.mem_filter.1 hmem).1⟩

theorem edgeP_detach {nodes : List FlexiNode} {nodeId : String} {a b : String}
    (h : EdgeP (nodes.map (fun n =>
      if n.id = nodeId then { n with parentIds := [] } else n)) a b) :
    EdgeP nodes a b := by
  obtain ⟨m, hm, hid, hcase⟩ := edgeP_map_modify (F := fun _ => ([] : List String)) h
  rcases hcase with ⟨_, hmem⟩ | ⟨_, hmem⟩
  · exact ⟨m, hm, hid, hmem⟩
  · simp at hmem

theorem edgeP_addNode {nodes : List FlexiNode} {newNode : FlexiNode} {a b : String}
    (h : EdgeP (nodes ++ [newNode]) a b) :
    EdgeP nodes a b ∨ (a ∈ {x | x ∈ newNode.parentIds} ∧ b = newNode.id) := by
  obtain ⟨n', hn', hid, hmem⟩ := h
  rcases List.mem_append.1 hn' with h1 | h1
  · exact Or.inl ⟨n', h1, hid, hmem⟩
  · simp only [List.mem_singleton] at h1
    subst h1
    exact Or.inr ⟨hmem, hid.symm⟩

theorem edgeP_removeNode {nodes : List FlexiNode} {id : String} {a b : String}
    (h : EdgeP ((nodes.filter (fun n => n.id ≠ id)).map (fun n =>
      if id ∈ n.parentIds then
        { n with parentIds := n.parentIds.filter (fun pid => pid ≠ id) }
      else n)) a b) :
    EdgeP nodes a b := by
  obtain ⟨n', hn', hid, hmem⟩ := h
  rw [List.mem_map] at hn'
  obtain ⟨m, hm, rfl⟩ := hn'
  have hm' : m ∈ nodes := (List.mem_filter.1 hm).1
  by_cases hc : id ∈ m.parentIds
  · rw [if_pos hc] at hid hmem
    exact ⟨m, hm', hid, (List.mem_filter.1 hmem).1⟩
  · rw [if_neg hc] at hid hmem
    exact ⟨m, hm', hid, hmem⟩

theorem edgeP_update_nostruct {nodes : List FlexiNode} {id : String} {u : NodeUpdate}
    (hid : u.id = none) (hpids : u.parentIds = none) {a b : String}
    (h : EdgeP (nodes.map (fun n => if n.id = id then applyUpdate n u else n)) a b) :
    EdgeP nodes a b := by
  obtain ⟨n', hn', hnid, hmem⟩ := h
  rw [List.mem_map] at hn'
  obtain ⟨m, hm, rfl⟩ := hn'
  by_cases hc : m.id = id
  · rw [if_pos hc] at hnid hmem
    simp only [applyUpdate, hid, hpids, Option.getD_none] at hnid hmem
    exact ⟨m, hm, hnid, hmem⟩
  · rw [if_neg hc] at hnid hmem
    exact ⟨m, hm, hnid, hmem⟩

/-- `firstFailure` accepts exactly when every check passes. -/
theorem firstFailure_isValid_iff (checks : List (Bool × String)) :
    (firstFailure checks).isValid = true ↔ ∀ c ∈ checks, c.1 = false := by
  induction checks with
  | nil => simp [firstFailure]
  | cons c rest ih =>
    obtain ⟨bad, msg⟩ := c
    by_cases hb : bad = true
    · subst hb
      simp [firstFailure]
    · rw [Bool.not_eq_true] at hb
      subst hb
      simp [firstFailure, ih]

/-- A `firstFailure` rejection names a failing check's message. -/
theorem firstFailure_error_eq {checks : List (Bool × String)} {e : String}
    (h : (firstFailure checks).error = some e) :
    ∃ c ∈ checks, c.1 = true ∧ c.2 = e := by
  induction checks with
  | nil => simp [firstFailure] at h
  | cons c rest ih =>
    obtain ⟨bad, msg⟩ := c
    by_cases hb : bad = true
    · subst hb
      simp only [firstFailure, if_true] at h
      simp only [Option.some.injEq] at h
      exact ⟨(true, msg), by simp, rfl, h⟩
    · rw [Bool.not_eq_true] at hb
      subst hb
      simp only [firstFailure, Bool.false_eq_true, if_false] at h
      obtain ⟨c', hc', hbad, hmsg⟩ := ih h
      exact ⟨c', by simp [hc'], hbad, hmsg⟩

/-- An accepted `validateEdge` under the default configuration implies
the proposed edge closes no cycle (the self-loop check fired first when
`s = t`, and the cycle check otherwise). -/
theorem validateEdge_default_accept {nodes : List FlexiNode} {s t : String}
    (h : (validateEdge nodes s t DEFAULT_FLEXIGRAPH_CONFIG).isValid = true) :
    s ≠ t ∧ wouldCreateCycle nodes s t = false := by
  rw [validateEdge_eq_firstFailure, firstFailure_isValid_iff] at h
  have hself := h (decide ((!cfgAllowSelfLoops DEFAULT_FLEXIGRAPH_CONFIG) = true ∧ s = t),
    "Self-loops are not allowed") (by simp [validateEdgeChecks])
  have hcyc := h (decide ((!cfgAllowCycles DEFAULT_FLEXIGRAPH_CONFIG) = true ∧ s ≠ t ∧
    wouldCreateCycle nodes s t = true), "Cycle detected") (by simp [validateEdgeChecks])
  simp only [decide_eq_false_iff_not] at hself hcyc
  have hst : s ≠ t := by
    intro heq
    exact hself ⟨by decide, heq⟩
  refine ⟨hst, ?_⟩
  by_cases hw : wouldCreateCycle nodes s t = true
  · exact absurd ⟨by decide, hst, hw⟩ hcyc
  · exact Bool.not_eq_true _ ▸ hw

/-- A duplicate-edge rejection under the default configuration means the
edge is already recorded in the collection. -/
theorem validateEdge_default_dup {nodes : List FlexiNode} {s t : String}
    (h : (validateEdge nodes s t DEFAULT_FLEXIGRAPH_CONFIG).error =
      some "Edge already exists") : EdgeP nodes s t := by
  rw [validateEdge_eq_firstFailure] at h
  obtain ⟨c, hc, hbad, hmsg⟩ := firstFailure_error_eq h
  unfold validateEdgeChecks at hc
  simp only [List.mem_cons, List.mem_singleton, List.not_mem_nil, or_false] at hc
  have hcustom : customCheck nodes DEFAULT_FLEXIGRAPH_CONFIG s t = (false, "") := by
    simp [customCheck, cfgCustom, DEFAULT_FLEXIGRAPH_CONFIG, defaultValidationConfig]
  rcases hc with h1 | h1 | h1 | h1 | h1 | h1 | h1 <;> subst h1
  · simp at hmsg
  · revert hbad
    cases ht : lookupNode nodes t with
    | none => simp
    | some target =>
      intro hbad
      simp only [decide_eq_true_eq] at hbad
      have htmem : target ∈ nodes := List.mem_of_find?_eq_some ht
      have htid : target.id = t := by
        have := List.find?_some ht
        simpa using this
      exact ⟨target, htmem, htid, hbad⟩
  · simp at hmsg
  · simp at hmsg
  · revert hbad
    simp [cfgMaxParents, DEFAULT_FLEXIGRAPH_CONFIG, jsOrNat]
  · revert hbad
    simp [cfgMaxDepth, DEFAULT_FLEXIGRAPH_CONFIG, defaultValidationConfig, jsOrNat]
  · rw [hcustom] at hbad
    simp at hbad

theorem firstFailure_valid_error {checks : List (Bool × String)}
    (h : (firstFailure checks).isValid = true) : (firstFailure checks).error = none := by
  induction checks with
  | nil => rfl
  | cons c rest ih =>
    obtain ⟨bad, msg⟩ := c
    by_cases hb : bad = true
    · subst hb
      simp [firstFailure] at h
    · rw [Bool.not_eq_true] at hb
      subst hb
      simp only [firstFailure, Bool.false_eq_true, if_false] at h ⊢
      exact ih h

theorem firstFailure_invalid_error {checks : List (Bool × String)}
    (h : (firstFailure checks).isValid = false) :
    ∃ e, (firstFailure checks).error = some e := by
  induction checks with
  | nil => simp [firstFailure] at h
  | cons c rest ih =>
    obtain ⟨bad, msg⟩ := c
    by_cases hb : bad = true
    · subst hb
      exact ⟨msg, rfl⟩
    · rw [Bool.not_eq_true] at hb
      subst hb
      simp only [firstFailure, Bool.false_eq_true, if_false] at h ⊢
      exact ih h

/-- With the default configuration, a `validateEdge` result is either
valid or carries one of the four reachable constant error messages. -/
theorem validateEdge_default_cases (nodes : List FlexiNode) (s t : String) :
    (validateEdge nodes s t DEFAULT_FLEXIGRAPH_CONFIG).isValid = true ∨
    (validateEdge nodes s t DEFAULT_FLEXIGRAPH_CONFIG).error ∈
      [some "Source or target node not found", some "Edge already exists",
       some "Self-loops are not allowed", some "Cycle detected"] := by
  by_cases hv : (validateEdge nodes s t DEFAULT_FLEXIGRAPH_CONFIG).isValid = true
  · exact Or.inl hv
  · right
    rw [Bool.not_eq_true] at hv
    rw [validateEdge_eq_firstFailure] at hv
    obtain ⟨e, herr⟩ := firstFailure_invalid_error hv
    rw [validateEdge_eq_firstFailure]
    rw [herr]
    obtain ⟨c, hc, hbad, hmsg⟩ := firstFailure_error_eq herr
    unfold validateEdgeChecks at hc
    simp only [List.mem_cons, List.mem_singleton, List.not_mem_nil, or_false] at hc
    rcases hc with h1 | h1 | h1 | h1 | h1 | h1 | h1 <;> subst h1
    · simp only [← hmsg]
      simp
    · simp only [← hmsg]
      simp
    · simp only [← hmsg]
      simp
    · simp only [← hmsg]
      simp
    · exfalso
      rw [show decide (0 < cfgMaxParents DEFAULT_FLEXIGRAPH_CONFIG) = false from rfl] at hbad
      simp at hbad
    · exfalso
      rw [decide_eq_true_eq] at hbad
      exact absurd hbad.1 (by decide)
    · exfalso
      rw [show customCheck nodes DEFAULT_FLEXIGRAPH_CONFIG s t = (false, "") from rfl] at hbad
      simp at hbad

/-- Acceptance through `setParents`' per-parent loop (under the default
configuration) rules out a path from the child to any new parent. -/
theorem setParentsLoopOk_no_cycle {nodes : List FlexiNode} {childId : String}
    {pids : List String} (hacyc : AcyclicNodes nodes)
    (hacc : setParentsLoopOk nodes childId pids DEFAULT_FLEXIGRAPH_CONFIG = true) :
    ∀ p ∈ pids, ¬ Relation.ReflTransGen (EdgeP nodes) childId p := by
  intro p hp hreach
  have hone := List.all_eq_true.1 hacc p hp
  simp only [decide_eq_true_eq] at hone
  rcases hone with h1 | h1 | h1
  · obtain ⟨_, hw⟩ := validateEdge_default_accept h1
    have hniff : ¬(p = childId ∨ Relation.ReflTransGen (EdgeP nodes) childId p) := by
      rw [← wouldCreateCycle_correct]
      simp [hw]
    exact hniff (Or.inr hreach)
  · have hedge := validateEdge_default_dup h1
    exact hacyc p childId hedge hreach
  · obtain ⟨e, he, hinc⟩ : ∃ e,
        (validateEdge nodes p childId DEFAULT_FLEXIGRAPH_CONFIG).error = some e ∧
        jsIncludesSub e "more than" = true := by
      cases herr : (validateEdge nodes p childId DEFAULT_FLEXIGRAPH_CONFIG).error with
      | none => rw [herr] at h1; simp at h1
      | some e => rw [herr] at h1; simp at h1; exact ⟨e, rfl, h1⟩
    rcases validateEdge_default_cases nodes p childId with hv | hmem
    · rw [validateEdge_eq_firstFailure] at hv he
      rw [firstFailure_valid_error hv] at he
      simp at he
    · simp only [List.mem_cons, List.mem_singleton, List.not_mem_nil, or_false] at hmem
      rcases hmem with h2 | h2 | h2 | h2 <;> rw [he] at h2 <;>
        simp only [Option.some.injEq] at h2 <;> subst h2 <;>
        exact absurd hinc (by decide)

/-- One state transition of the node collection under the default
no-cycle policy: the result expressions are the `_nodes.update` bodies
of `FlexiGraphService`, and each edge-creating operation carries the
acceptance condition the service (or, for `addNode`, the claim's
policy hypothesis) imposes.  `reparent(c, p)` is `setParents c [p]`. -/
inductive AcceptedStep : List FlexiNode → List FlexiNode → Prop where
  | addNode (nodes : List FlexiNode) (id lbl : String) (pids : List String)
      (hpolicy : ∀ p ∈ pids, wouldCreateCycle nodes p id = false) :
      AcceptedStep nodes (nodes ++ [⟨id, lbl, pids⟩])
  | updateNode (nodes : List FlexiNode) (id : String) (u : NodeUpdate)
      (hid : u.id = none) (hpids : u.parentIds = none) :
      AcceptedStep nodes (nodes.map (fun n => if n.id = id then applyUpdate n u else n))
  | removeNode (nodes : List FlexiNode) (id : String) :
      AcceptedStep nodes ((nodes.filter (fun n => n.id ≠ id)).map (fun n =>
        if id ∈ n.parentIds then
          { n with parentIds := n.parentIds.filter (fun pid => pid ≠ id) }
        else n))
  | addParent (nodes : List FlexiNode) (childId parentId : String)
      (hacc : (validateEdge nodes parentId childId
        DEFAULT_FLEXIGRAPH_CONFIG).isValid = true) :
      AcceptedStep nodes (nodes.map (fun n =>
        if n.id = childId then { n with parentIds := n.parentIds ++ [parentId] } else n))
  | removeParent (nodes : List FlexiNode) (childId parentId : String) :
      AcceptedStep nodes (nodes.map (fun n =>
        if n.id = childId then
          { n with parentIds := n.parentIds.filter (fun pid => pid ≠ parentId) }
        else n))
  | setParents (nodes : List FlexiNode) (childId : String) (pids : List String)
      (hacc : setParentsLoopOk nodes childId pids DEFAULT_FLEXIGRAPH_CONFIG = true) :
      AcceptedStep nodes (nodes.map (fun n =>
        if n.id = childId then { n with parentIds := pids } else n))
  | detachNode (nodes : List FlexiNode) (nodeId : String) :
      AcceptedStep nodes (nodes.map (fun n =>
        if n.id = nodeId then { n with parentIds := [] } else n))

theorem acceptedStep_preserves {n1 n2 : List FlexiNode}
    (h : AcceptedStep n1 n2) (hacyc : AcyclicNodes n1) : AcyclicNodes n2 := by
  have hrel := (acyclicNodes_iff n1).1 hacyc
  rw [acyclicNodes_iff]
  cases h with
  | addNode id lbl pids hpolicy =>
    refine acyclicRel_mono (fun a b hab => ?_)
      (acyclicRel_union_into (S := {x | x ∈ pids}) (X := id) hrel ?_)
    · exact edgeP_addNode hab
    · intro p hp hreach
      have hw := hpolicy p hp
      have hniff : ¬(p = id ∨ Relation.ReflTransGen (EdgeP n1) id p) := by
        rw [← wouldCreateCycle_correct]
        simp [hw]
      exact hniff (Or.inr hreach)
  | updateNode id u hid hpids =>
    exact acyclicRel_mono (fun a b hab => edgeP_update_nostruct hid hpids hab) hrel
  | removeNode id =>
    exact acyclicRel_mono (fun a b hab => edgeP_removeNode hab) hrel
  | addParent childId parentId hacc =>
    obtain ⟨hne, hw⟩ := validateEdge_default_accept hacc
    refine acyclicRel_mono (fun a b hab => edgeP_addParent hab)
      (acyclicRel_union_into (S := {parentId}) (X := childId) hrel ?_)
    intro p hp hreach
    rw [Set.mem_singleton_iff] at hp
    subst hp
    have hniff : ¬(p = childId ∨ Relation.ReflTransGen (EdgeP n1) childId p) := by
      rw [← wouldCreateCycle_correct]
      simp [hw]
    exact hniff (Or.inr hreach)
  | removeParent childId parentId =>
    exact acyclicRel_mono (fun a b hab => edgeP_removeParent hab) hrel
  | setParents childId pids hacc =>
    refine acyclicRel_mono (fun a b hab => edgeP_setParents hab)
      (acyclicRel_union_into (S := {x | x ∈ pids}) (X := childId) hrel ?_)
    exact fun p hp => setParentsLoopOk_no_cycle hacyc hacc p hp
  | detachNode nodeId =>
    exact acyclicRel_mono (fun a b hab => edgeP_detach hab) hrel

/-- **C1 (amended).** Starting from the empty collection, any sequence
of mutations whose edge-creating operations (`addParent`,
`reparent`/`setParents`, and `addNode` with initial `parentIds`) are
accepted under the default no-cycle policy — and whose `updateNode`
calls do not rewrite `id` or `parentIds`, since `updateNode` performs no
validation — leaves the collection acyclic: no recorded parent→child
edge has a path from the child back to the parent (hence no node is its
own parent). -/
theorem accepted_mutations_acyclic (nodes : List FlexiNode)
    (htrace : Relation.ReflTransGen AcceptedStep [] nodes) :
    ∀ p c, EdgeP nodes p c → ¬ Relation.ReflTransGen (EdgeP nodes) c p := by
  have hacyc : AcyclicNodes nodes := by
    induction htrace with
    | refl =>
      intro p c hedge _
      obtain ⟨n, hn, _⟩ := hedge
      simp at hn
    | tail _ hstep ih => exact acceptedStep_preserves hstep ih
  exact hacyc

def c1WitnessNodes : List FlexiNode := [⟨"a", "A", []⟩, ⟨"b", "B", ["a"]⟩]

theorem accepted_mutations_acyclic_witness :
    ¬ Relation.ReflTransGen (EdgeP c1WitnessNodes) "b" "a" :=
  accepted_mutations_acyclic c1WitnessNodes
    (Relation.ReflTransGen.tail
      (Relation.ReflTransGen.single
        (AcceptedStep.addNode [] "a" "A" [] (by intro p hp; simp at hp)))
      (AcceptedStep.addNode [⟨"a", "A", []⟩] "b" "B" ["a"] (by decide)))
    "a" "b" (by decide)

/-- The accepted-mutation sequence behind the C1 counterexample:
`updateNode` (not among the claim's edge-creating operations, and
unvalidated in the code) rewrites `parentIds` into a cycle. -/
def cxSt0 : ServiceState := {}

def cxSt1 : ServiceState := (applyOp (.addNode (some "a") "A" none) cxSt0).2

def cxSt2 : ServiceState := (applyOp (.addNode (some "b") "B" none) cxSt1).2

def cxSt3 : ServiceState :=
  (applyOp (.updateNode "a" { parentIds := some ["b"] }) cxSt2).2

def cxSt4 : ServiceState :=
  (applyOp (.updateNode "b" { parentIds := some ["a"] }) cxSt3).2

/-- **C1 counterexample.** Under the default configuration, the accepted
sequence `addNode a; addNode b; updateNode a {parentIds:[b]};
updateNode b {parentIds:[a]}` contains no edge-creating operation from
the claim's list (both `addNode`s have empty initial `parentIds`), every
call is accepted, and the resulting collection has the edge `b → a`
together with a path `a → b`: the claimed acyclicity fails. -/
theorem updateNode_breaks_acyclicity :
    (applyOp (.addNode (some "a") "A" none) cxSt0).1 = true ∧
    (applyOp (.addNode (some "b") "B" none) cxSt1).1 = true ∧
    (applyOp (.updateNode "a" { parentIds := some ["b"] }) cxSt2).1 = true ∧
    (applyOp (.updateNode "b" { parentIds := some ["a"] }) cxSt3).1 = true ∧
    EdgeP cxSt4.nodes "b" "a" ∧
    Relation.ReflTransGen (EdgeP cxSt4.nodes) "a" "b" ∧
    ¬ (∀ p c, EdgeP cxSt4.nodes p c →
        ¬ Relation.ReflTransGen (EdgeP cxSt4.nodes) c p) :=
  ⟨rfl, rfl, rfl, rfl, by decide,
   Relation.ReflTransGen.single (by decide),
   fun hcl => hcl "b" "a" (by decide)
     (Relation.ReflTransGen.single (by decide))⟩

/-! ### CollapseService (`collapse.service.ts`, claim C5) -/

/-- `CollapseService.findDirectChildren`. -/
def findDirectChildren (nodes : List FlexiNode) (nodeId : String) : List FlexiNode :=
  nodes.filter (fun node => nodeId ∈ node.parentIds)

/-- The recursive `traverse` closure of `findAllDescendants`, threading
the `(visited, descendants)` pair and with fuel bounding the recursion
depth (each nested call first inserts a fresh node id into `visited`, so
depth never exceeds the number of nodes and the fuel below suffices). -/
def dfsDescend (nodes : List FlexiNode) :
    Nat → String → Finset String × List String → Finset String × List String
  | 0, _, st => st
  | fuel + 1, currentId, st =>
    (findDirectChildren nodes currentId).foldl
      (fun acc child =>
        if child.id ∈ acc.1 then acc
        else dfsDescend nodes fuel child.id (insert child.id acc.1, acc.2 ++ [child.id]))
      st

/-- `CollapseService.findAllDescendants` (preorder, de-duplicated). -/
def findAllDescendants (nodes : List FlexiNode) (nodeId : String) : List String :=
  (dfsDescend nodes (nodes.length + 1) nodeId (∅, [])).2

/-- One `CollapseNodeState` entry (`collapsedAt` timestamp elided). -/
structure CollapseNodeState where
  nodeId : String
  hiddenDescendantIds : List String
  deriving Repr, DecidableEq

/-- The service's three signals: collapsed-id set, hidden-id set, and
the per-node collapse states (JS `Map`, insertion-ordered). -/
structure CollapseSvcState where
  collapsedNodeIds : Finset String := ∅
  hiddenNodeIds : Finset String := ∅
  collapseStates : List CollapseNodeState := []

/-- `CollapseService.recalculateHiddenNodes`: the union over all
currently-collapsed ids of their descendant sets, recomputed from the
given collection. -/
def recalculateHiddenNodes (nodes : List FlexiNode) (collapsed : Finset String) :
    Finset String :=
  collapsed.biUnion (fun cid => (findAllDescendants nodes cid).toFinset)

/-- `CollapseService.collapse`. -/
def collapseOp (st : CollapseSvcState) (nodeId : String) (nodes : List FlexiNode) :
    Bool × CollapseSvcState :=
  if nodeId ∈ st.collapsedNodeIds then (false, st)
  else
    let descendants := findAllDescendants nodes nodeId
    if descendants.isEmpty then (false, st)
    else
      let collapsed' := insert nodeId st.collapsedNodeIds
      (true,
        { collapsedNodeIds := collapsed'
          collapseStates := st.collapseStates.filter (fun e => e.nodeId ≠ nodeId) ++
            [⟨nodeId, descendants⟩]
          hiddenNodeIds := recalculateHiddenNodes nodes collapsed' })

/-- `CollapseService.expand`. -/
def expandOp (st : CollapseSvcState) (nodeId : String) (nodes : List FlexiNode) :
    Bool × CollapseSvcState :=
  if nodeId ∉ st.collapsedNodeIds then (false, st)
  else
    let collapsed' := st.collapsedNodeIds.erase nodeId
    (true,
      { collapsedNodeIds := collapsed'
        collapseStates := st.collapseStates.filter (fun e => e.nodeId ≠ nodeId)
        hiddenNodeIds := recalculateHiddenNodes nodes collapsed' })

/-- `CollapseService.toggle`. -/
def toggleOp (st : CollapseSvcState) (nodeId : String) (nodes : List FlexiNode) :
    Bool × CollapseSvcState :=
  if nodeId ∈ st.collapsedNodeIds then expandOp st nodeId nodes
  else collapseOp st nodeId nodes

/-- `CollapseService.expandAll`. -/
def expandAllOp (_st : CollapseSvcState) (_nodes : List FlexiNode) : CollapseSvcState :=
  { collapsedNodeIds := ∅, hiddenNodeIds := ∅, collapseStates := [] }

/-- `CollapseService.onNodeDeleted`. -/
def onNodeDeletedOp (st : CollapseSvcState) (nodeId : String)
    (nodes : List FlexiNode) : CollapseSvcState :=
  let st1 :=
    if nodeId ∈ st.collapsedNodeIds then
      { st with
        collapseStates := st.collapseStates.filter (fun e => e.nodeId ≠ nodeId)
        collapsedNodeIds := st.collapsedNodeIds.erase nodeId }
    else st
  { st1 with hiddenNodeIds := recalculateHiddenNodes nodes st1.collapsedNodeIds }

/-- `CollapseService.restoreCollapseState`. -/
def restoreCollapseStateOp (_st : CollapseSvcState) (saved : List CollapseNodeState)
    (nodes : List FlexiNode) : CollapseSvcState :=
  let collapsed' := (saved.map (fun e => e.nodeId)).toFinset
  { collapsedNodeIds := collapsed'
    collapseStates := saved
    hiddenNodeIds := recalculateHiddenNodes nodes collapsed' }

/-- One collapse-service call over a fixed node collection. -/
inductive CollapseStep (nodes : List FlexiNode) :
    CollapseSvcState → CollapseSvcState → Prop where
  | collapse (id : String) (st : CollapseSvcState) :
      CollapseStep nodes st (collapseOp st id nodes).2
  | expand (id : String) (st : CollapseSvcState) :
      CollapseStep nodes st (expandOp st id nodes).2
  | toggle (id : String) (st : CollapseSvcState) :
      CollapseStep nodes st (toggleOp st id nodes).2
  | expandAll (st : CollapseSvcState) :
      CollapseStep nodes st (expandAllOp st nodes)
  | onNodeDeleted (id : String) (st : CollapseSvcState) :
      CollapseStep nodes st (onNodeDeletedOp st id nodes)
  | restore (saved : List CollapseNodeState) (st : CollapseSvcState) :
      CollapseStep nodes st (restoreCollapseStateOp st saved nodes)

theorem collapseOp_fail (st : CollapseSvcState) (id : String) (nodes : List FlexiNode)
    (h : id ∈ st.collapsedNodeIds ∨ (findAllDescendants nodes id).isEmpty = true) :
    collapseOp st id nodes = (false, st) := by
  unfold collapseOp
  by_cases h1 : id ∈ st.collapsedNodeIds
  · rw [if_pos h1]
  · rw [if_neg h1]
    rcases h with h2 | h2
    · exact absurd h2 h1
    · rw [if_pos h2]

theorem collapseStep_hidden {nodes : List FlexiNode} {s1 s2 : CollapseSvcState}
    (h : CollapseStep nodes s1 s2)
    (hinv : s1.hiddenNodeIds = recalculateHiddenNodes nodes s1.collapsedNodeIds) :
    s2.hiddenNodeIds = recalculateHiddenNodes nodes s2.collapsedNodeIds := by
  cases h with
  | collapse id =>
    unfold collapseOp
    by_cases h1 : id ∈ s1.collapsedNodeIds
    · rw [if_pos h1]; exact hinv
    · rw [if_neg h1]
      by_cases h2 : (findAllDescendants nodes id).isEmpty = true
      · rw [if_pos h2]; exact hinv
      · rw [if_neg h2]
  | expand id =>
    unfold expandOp
    by_cases h1 : id ∉ s1.collapsedNodeIds
    · rw [if_pos h1]; exact hinv
    · rw [if_neg h1]
  | toggle id =>
    unfold toggleOp
    by_cases h1 : id ∈ s1.collapsedNodeIds
    · rw [if_pos h1]
      unfold expandOp
      by_cases h2 : id ∉ s1.collapsedNodeIds
      · rw [if_pos h2]; exact hinv
      · rw [if_neg h2]
    · rw [if_neg h1]
      unfold collapseOp
      rw [if_neg h1]
      by_cases h2 : (findAllDescendants nodes id).isEmpty = true
      · rw [if_pos h2]; exact hinv
      · rw [if_neg h2]
  | expandAll =>
    unfold expandAllOp recalculateHiddenNodes
    simp
  | onNodeDeleted id =>
    unfold onNodeDeletedOp
    by_cases h1 : id ∈ s1.collapsedNodeIds
    · rw [if_pos h1]
    · rw [if_neg h1]
  | restore saved =>
    unfold restoreCollapseStateOp
    rfl

/-- **C5.** Over a fixed node collection, after every sequence of
`collapse` / `expand` / `toggle` / `expandAll` / `onNodeDeleted` /
`restoreCollapseState` calls the hidden-id set is exactly the union of
the descendant sets of the currently-collapsed ids, recomputed from the
collection (so after expanding one ancestor a node stays hidden iff
another still-collapsed ancestor covers it); and collapsing an
already-collapsed or childless node fails and leaves the state
unchanged. -/
theorem collapse_hidden_invariant (nodes : List FlexiNode) (st : CollapseSvcState)
    (htrace : Relation.ReflTransGen (CollapseStep nodes) {} st) :
    (st.hiddenNodeIds = recalculateHiddenNodes nodes st.collapsedNodeIds) ∧
    (∀ x, x ∈ st.hiddenNodeIds ↔
      ∃ c ∈ st.collapsedNodeIds, x ∈ findAllDescendants nodes c) ∧
    (∀ id, (id ∈ st.collapsedNodeIds ∨ (findAllDescendants nodes id).isEmpty = true) →
      collapseOp st id nodes = (false, st)) := by
  have hinv : st.hiddenNodeIds = recalculateHiddenNodes nodes st.collapsedNodeIds := by
    induction htrace with
    | refl => rfl
    | tail _ hstep ih => exact collapseStep_hidden hstep ih
  refine ⟨hinv, ?_, fun id => collapseOp_fail st id nodes⟩
  intro x
  rw [hinv]
  unfold recalculateHiddenNodes
  simp [Finset.mem_biUnion]

def c5WitnessNodes : List FlexiNode :=
  [⟨"A", "A", []⟩, ⟨"B", "B", ["A"]⟩, ⟨"C", "C", ["A"]⟩, ⟨"D", "D", ["C"]⟩]

theorem collapse_hidden_invariant_witness :
    ((collapseOp {} "A" c5WitnessNodes).2.hiddenNodeIds =
      recalculateHiddenNodes c5WitnessNodes
        (collapseOp {} "A" c5WitnessNodes).2.collapsedNodeIds) ∧
    (∀ x, x ∈ (collapseOp {} "A" c5WitnessNodes).2.hiddenNodeIds ↔
      ∃ c ∈ (collapseOp {} "A" c5WitnessNodes).2.collapsedNodeIds,
        x ∈ findAllDescendants c5WitnessNodes c) ∧
    (∀ id, (id ∈ (collapseOp {} "A" c5WitnessNodes).2.collapsedNodeIds ∨
        (findAllDescendants c5WitnessNodes id).isEmpty = true) →
      collapseOp (collapseOp {} "A" c5WitnessNodes).2 id c5WitnessNodes =
        (false, (collapseOp {} "A" c5WitnessNodes).2)) :=
  collapse_hidden_invariant c5WitnessNodes _
    (Relation.ReflTransGen.single (CollapseStep.collapse "A" {}))

/-! ### StableLayoutService incremental pass (`stable-layout.service.ts`,
claim C9) -/

/-- A 2-D position.  JS numbers are modelled as rationals: the claim's
exactness statement concerns nodes whose positions are only assigned
(never arithmetically recombined), so no floating-point rounding is
involved for them. -/
def Pos : Type := ℚ × ℚ

instance : DecidableEq Pos := by
  unfold Pos
  infer_instance

/-- `calculateCentroid` over the listed positions. -/
def centroid (ps : List Pos) : Pos :=
  if ps.length = 0 then ((0 : ℚ), (0 : ℚ))
  else
    (ps.foldl (fun acc p => acc + p.1) 0 / (ps.length : ℚ),
     ps.foldl (fun acc p => acc + p.2) 0 / (ps.length : ℚ))

/-- `getAffectedSubtreeIds`: the directly affected ids plus, for each
directly affected id present in the graph, all of its descendants.
Cytoscape's `successors('node')` closure over the parent→child edges of
`nodesToEdges` is the same descendant closure `findAllDescendants`
computes. -/
def affectedSubtreeIds (nodes : List FlexiNode) (direct : List String) :
    Finset String :=
  direct.toFinset ∪ direct.foldl
    (fun acc id =>
      if (lookupNode nodes id).isSome then
        acc ∪ (findAllDescendants nodes id).toFinset
      else acc) ∅

/-- `runIncrementalLayout` for a `reparent` change, from the Stable
state.  `nodeIds` are the canvas nodes, `cache` the `PositionCache`,
`pos0` the current positions, `direct` the change's `affectedNodeIds`
and `sub` the external sub-layout's output positions on the affected
collection.  Steps: (1) every node is restored to its cached position;
(2) nodes outside the expanded affected set `S` are locked; (3) the
new-node seeding step applies only to `add` changes and is skipped for
`reparent`; (4) when `S` is nonempty, the external algorithm runs over
the affected collection only — locked nodes cannot move and a
collection layout positions only its own nodes, so it reassigns exactly
the nodes of `S` — and the affected nodes are then translated by the
before-minus-after centroid delta; (5) all nodes are unlocked and
positions re-cached. -/
def runIncrementalReparent (nodeIds : List String) (nodes : List FlexiNode)
    (cache : String → Option Pos) (pos0 : String → Pos)
    (direct : List String) (sub : String → Pos) : String → Pos :=
  let S := affectedSubtreeIds nodes direct
  let pos1 : String → Pos := fun id => (cache id).getD (pos0 id)
  if S.card = 0 then pos1
  else
    let pos2 : String → Pos := fun id => if id ∈ S then sub id else pos1 id
    let affectedList := nodeIds.filter (fun id => decide (id ∈ S))
    let before := centroid (affectedList.map pos1)
    let after := centroid (affectedList.map pos2)
    let delta : Pos := (before.1 - after.1, before.2 - after.2)
    fun id =>
      if id ∈ S then ((pos2 id).1 + delta.1, (pos2 id).2 + delta.2)
      else pos2 id

/-- The translation applied to the affected subset. -/
def reparentDelta (nodeIds : List String) (nodes : List FlexiNode)
    (cache : String → Option Pos) (pos0 : String → Pos)
    (direct : List String) (sub : String → Pos) : Pos :=
  let S := affectedSubtreeIds nodes direct
  let pos1 : String → Pos := fun id => (cache id).getD (pos0 id)
  let pos2 : String → Pos := fun id => if id ∈ S then sub id else pos1 id
  let affectedList := nodeIds.filter (fun id => decide (id ∈ S))
  let before := centroid (affectedList.map pos1)
  let after := centroid (affectedList.map pos2)
  (before.1 - after.1, before.2 - after.2)

/-- **C9.** From the Stable state, an incremental `reparent` pass leaves
every node outside the expanded affected subtree `S` at exactly its
cached position; only nodes of `S` are repositioned, and each node of
`S` ends at the external sub-layout's position translated by the
before-minus-after centroid delta, anchoring the subset relative to the
unaffected remainder. -/
theorem stable_layout_reparent_frame (nodeIds : List String)
    (nodes : List FlexiNode) (cache : String → Option Pos) (pos0 : String → Pos)
    (direct : List String) (sub : String → Pos) :
    (∀ id, id ∉ affectedSubtreeIds nodes direct → ∀ p, cache id = some p →
      runIncrementalReparent nodeIds nodes cache pos0 direct sub id = p) ∧
    (∀ id, id ∈ affectedSubtreeIds nodes direct →
      runIncrementalReparent nodeIds nodes cache pos0 direct sub id =
        ((sub id).1 + (reparentDelta nodeIds nodes cache pos0 direct sub).1,
         (sub id).2 + (reparentDelta nodeIds nodes cache pos0 direct sub).2)) := by
  constructor
  · intro id hout p hc
    unfold runIncrementalReparent
    by_cases hS : (affectedSubtreeIds nodes direct).card = 0
    · rw [if_pos hS]
      simp [hc]
    · rw [if_neg hS]
      simp only [if_neg hout, hc, Option.getD_some]
  · intro id hin
    have hS : (affectedSubtreeIds nodes direct).card ≠ 0 := by
      intro h0
      rw [Finset.card_eq_zero] at h0
      rw [h0] at hin
      simp at hin
    unfold runIncrementalReparent reparentDelta
    rw [if_neg hS]
    simp only [if_pos hin]

def c9Nodes : List FlexiNode := [⟨"r", "R", []⟩, ⟨"s", "S", ["r"]⟩]

def c9Cache : String → Option Pos :=
  fun id => if id = "r" then some ((1 : ℚ), (2 : ℚ))
    else if id = "s" then some ((3 : ℚ), (4 : ℚ)) else none

theorem stable_layout_reparent_frame_witness :
    runIncrementalReparent ["r", "s"] c9Nodes c9Cache
      (fun _ => ((0 : ℚ), (0 : ℚ))) ["s"] (fun _ => ((10 : ℚ), (10 : ℚ))) "r" =
      ((1 : ℚ), (2 : ℚ)) ∧
    runIncrementalReparent ["r", "s"] c9Nodes c9Cache
      (fun _ => ((0 : ℚ), (0 : ℚ))) ["s"] (fun _ => ((10 : ℚ), (10 : ℚ))) "s" =
      (((10 : ℚ) + (reparentDelta ["r", "s"] c9Nodes c9Cache
          (fun _ => ((0 : ℚ), (0 : ℚ))) ["s"] (fun _ => ((10 : ℚ), (10 : ℚ)))).1),
       ((10 : ℚ) + (reparentDelta ["r", "s"] c9Nodes c9Cache
          (fun _ => ((0 : ℚ), (0 : ℚ))) ["s"] (fun _ => ((10 : ℚ), (10 : ℚ)))).2)) :=
  ⟨(stable_layout_reparent_frame ["r", "s"] c9Nodes c9Cache
      (fun _ => ((0 : ℚ), (0 : ℚ))) ["s"] (fun _ => ((10 : ℚ), (10 : ℚ)))).1
    "r" (by decide) ((1 : ℚ), (2 : ℚ)) rfl,
   (stable_layout_reparent_frame ["r", "s"] c9Nodes c9Cache
      (fun _ => ((0 : ℚ), (0 : ℚ))) ["s"] (fun _ => ((10 : ℚ), (10 : ℚ)))).2
    "s" (by decide)⟩

end FlexiGraph
